import Mathlib

/-!
Verification of the workflow execution engine of this repository: the graph
validators and cycle detector, the Kahn-style scheduler
(`validateExecutionOrder`), and the execution orchestrator
(`WorkflowExecutionService.executeWorkflow` / `executeNode` /
`getNodeInputData`).  The TypeScript source is embedded shallowly: JS `Map`
and `Set` are modelled with insertion-order preserving structures, JS
truthiness is modelled explicitly, thrown exceptions become explicit error
results, and the two wall-clock reads (`Date.now()`) are modelled by an
oracle `clock : Nat -> Int` consumed through a call counter.
-/

set_option maxHeartbeats 1000000

/-- Insertion-order preserving map, the model of a JS `Map`: a list of keys in
first-insertion order plus a lookup function.  `set` updates in place when the
key exists and appends the key otherwise, exactly as a JS `Map`. -/
structure JsMap (κ : Type) (α : Type) [DecidableEq κ] where
  keys : List κ
  val : κ → Option α

def JsMap.empty {κ α : Type} [DecidableEq κ] : JsMap κ α :=
  ⟨[], fun _ => none⟩

def JsMap.get {κ α : Type} [DecidableEq κ] (m : JsMap κ α) (k : κ) : Option α :=
  m.val k

def JsMap.set {κ α : Type} [DecidableEq κ] (m : JsMap κ α) (k : κ) (v : α) : JsMap κ α :=
  ⟨if k ∈ m.keys then m.keys else m.keys ++ [k],
   fun x => if x = k then some v else m.val x⟩

/-- Model of a JS `Set`: a list without duplicates in insertion order.
`add` appends only when absent; `has` is membership. -/
def JsSet.add {κ : Type} [DecidableEq κ] (s : List κ) (k : κ) : List κ :=
  if k ∈ s then s else s ++ [k]

/-- JS truthiness of an optional string: `undefined` and the empty string are
falsy, every other string is truthy. -/
def strTruthy : Option String → Bool
  | none => false
  | some s => !(s = "")

/-- JS string interpolation of a possibly-undefined string, as in a template
literal: `undefined` prints as "undefined". -/
def showOptStr : Option String → String
  | none => "undefined"
  | some s => s

/-- JS `node.id || index`: the id when truthy, otherwise the numeric index
printed in decimal. -/
def idOrIndex (id : Option String) (index : Nat) : String :=
  if strTruthy id then showOptStr id else toString index

/-- The layout position of a node; a coordinate is `none` when the field is
absent or not a number (`typeof x !== \'number\'`). -/
structure NodePosition where
  x : Option Int
  y : Option Int
deriving DecidableEq

/-- The kind-specific configuration payload.  The source treats it as `any`
and reads these fields defensively, so every field is optional here.
Numeric fields are rationals, standing for JS numbers. -/
structure WebhookCfg where
  url : Option String
deriving DecidableEq

structure SlackCfg where
  webhook : Option String
deriving DecidableEq

structure EmailCfg where
  -- the source field is named `to`, which Lean reserves
  recipients : Option (List String)
deriving DecidableEq

structure NodeConfig where
  type : Option String := none
  host : Option String := none
  database : Option String := none
  username : Option String := none
  password : Option String := none
  model : Option String := none
  prompt : Option String := none
  temperature : Option ℚ := none
  maxTokens : Option ℚ := none
  operation : Option String := none
  script : Option String := none
  webhook : Option WebhookCfg := none
  slack : Option SlackCfg := none
  email : Option EmailCfg := none
deriving DecidableEq

structure NodeData where
  label : Option String := none
  config : Option NodeConfig := none
deriving DecidableEq

/-- A workflow node as it reaches the validators and the engine at runtime:
the JSON payload may lack any field, hence every field is optional. -/
structure WorkflowNode where
  id : Option String := none
  type : Option String := none
  data : Option NodeData := none
  position : Option NodePosition := none
deriving DecidableEq

structure WorkflowEdge where
  id : Option String := none
  source : Option String := none
  target : Option String := none
deriving DecidableEq

structure WorkflowValidationResult where
  isValid : Bool
  errors : List String
  warnings : List String
deriving DecidableEq

/-- Per-kind configuration checker, the embedding of `validateNodeConfig`.
It receives the accumulated error and warning lists and returns them with
its findings appended, modelling the push calls on the shared arrays.
JS truthiness guards are rendered exactly: in particular
`config.temperature && ...` and `config.maxTokens && ...` skip the range
check when the number is 0. -/
def validateNodeConfig (node : WorkflowNode) (config : NodeConfig)
    (errors warnings : List String) : List String × List String :=
  let nid := showOptStr node.id
  match node.type with
  | some "database" =>
    let errors := if !strTruthy config.type then
        errors ++ ["Database node " ++ nid ++ " is missing database type"] else errors
    let errors := if !strTruthy config.host then
        errors ++ ["Database node " ++ nid ++ " is missing host"] else errors
    let warnings := if !strTruthy config.database then
        warnings ++ ["Database node " ++ nid ++ " is missing database name"] else warnings
    let warnings := if !strTruthy config.username then
        warnings ++ ["Database node " ++ nid ++ " is missing username"] else warnings
    let warnings := if !strTruthy config.password then
        warnings ++ ["Database node " ++ nid ++ " is missing password"] else warnings
    (errors, warnings)
  | some "ai" =>
    let errors := if !strTruthy config.model then
        errors ++ ["AI node " ++ nid ++ " is missing model specification"] else errors
    let errors := if !strTruthy config.prompt then
        errors ++ ["AI node " ++ nid ++ " is missing prompt"] else errors
    let errors := match config.temperature with
      | some t => if t ≠ 0 ∧ (t < 0 ∨ 1 < t) then
          errors ++ ["AI node " ++ nid ++ " has invalid temperature (must be between 0 and 1)"]
        else errors
      | none => errors
    let errors := match config.maxTokens with
      | some m => if m ≠ 0 ∧ m < 1 then
          errors ++ ["AI node " ++ nid ++ " has invalid maxTokens (must be positive)"]
        else errors
      | none => errors
    (errors, warnings)
  | some "transform" =>
    let errors := if !strTruthy config.operation then
        errors ++ ["Transform node " ++ nid ++ " is missing operation type"] else errors
    let errors := if !strTruthy config.script then
        errors ++ ["Transform node " ++ nid ++ " is missing script"] else errors
    (errors, warnings)
  | some "output" =>
    let errors := if !strTruthy config.type then
        errors ++ ["Output node " ++ nid ++ " is missing output type"] else errors
    let errors := match config.type with
      | some "webhook" =>
        if !strTruthy (config.webhook.bind (·.url)) then
          errors ++ ["Output node " ++ nid ++ " webhook is missing URL"] else errors
      | some "slack" =>
        if !strTruthy (config.slack.bind (·.webhook)) then
          errors ++ ["Output node " ++ nid ++ " slack is missing webhook URL"] else errors
      | some "email" =>
        match config.email.bind (·.recipients) with
        | none => errors ++ ["Output node " ++ nid ++ " email is missing recipients"]
        | some rcpts =>
          if rcpts.length = 0 then
            errors ++ ["Output node " ++ nid ++ " email is missing recipients"] else errors
      | _ => errors
    (errors, warnings)
  | _ => (errors, warnings)

/-- State of the `nodes.forEach` loop of `validateWorkflowNodes`: the error
and warning arrays and the two id sets. -/
structure NodeScanState where
  errors : List String
  warnings : List String
  nodeIds : List String
  duplicateIds : List String

/-- The id phase of the `nodes.forEach` body of `validateWorkflowNodes`:
record the missing-id error, or register the id and detect a duplicate. -/
def scanNodeId (st : NodeScanState) (node : WorkflowNode) (index : Nat) : NodeScanState :=
  if !strTruthy node.id then
    { st with errors := st.errors ++
        ["Node at index " ++ toString index ++ " is missing required \'id\' field"] }
  else
    let nid := showOptStr node.id
    let st := if st.nodeIds.contains nid then
        { st with duplicateIds := JsSet.add st.duplicateIds nid } else st
    { st with nodeIds := JsSet.add st.nodeIds nid }

/-- The type phase of the `nodes.forEach` body of `validateWorkflowNodes`. -/
def scanNodeType (st : NodeScanState) (node : WorkflowNode) (index : Nat) : NodeScanState :=
  match node.type with
  | none => { st with errors := st.errors ++
      ["Node " ++ idOrIndex node.id index ++ " is missing required \'type\' field"] }
  | some t =>
    if t = "" then
      { st with errors := st.errors ++
        ["Node " ++ idOrIndex node.id index ++ " is missing required \'type\' field"] }
    else if !(["database", "ai", "transform", "output"].contains t) then
      { st with errors := st.errors ++
        ["Node " ++ idOrIndex node.id index ++ " has invalid type: " ++ t] }
    else st

/-- The data phase of the `nodes.forEach` body of `validateWorkflowNodes`. -/
def scanNodeData (st : NodeScanState) (node : WorkflowNode) (index : Nat) : NodeScanState :=
  match node.data with
  | none => { st with errors := st.errors ++
      ["Node " ++ idOrIndex node.id index ++ " is missing required \'data\' field"] }
  | some d =>
    let st := if !strTruthy d.label then
        { st with warnings := st.warnings ++
          ["Node " ++ showOptStr node.id ++ " is missing a label"] } else st
    match d.config with
    | none => { st with warnings := st.warnings ++
        ["Node " ++ showOptStr node.id ++ " has no configuration"] }
    | some cfg =>
      let r := validateNodeConfig node cfg st.errors st.warnings
      { st with errors := r.1, warnings := r.2 }

/-- The position phase of the `nodes.forEach` body of `validateWorkflowNodes`. -/
def scanNodePos (st : NodeScanState) (node : WorkflowNode) (index : Nat) : NodeScanState :=
  match node.position with
  | none => { st with errors := st.errors ++
      ["Node " ++ idOrIndex node.id index ++ " has invalid position data"] }
  | some p =>
    if p.x.isNone ∨ p.y.isNone then
      { st with errors := st.errors ++
        ["Node " ++ idOrIndex node.id index ++ " has invalid position data"] }
    else st

/-- One iteration of the `nodes.forEach` body of `validateWorkflowNodes`:
the id, type, data and position phases in source order. -/
def scanNode (st : NodeScanState) (node : WorkflowNode) (index : Nat) : NodeScanState :=
  scanNodePos (scanNodeData (scanNodeType (scanNodeId st node index) node index) node index)
    node index

/-- The indexed `forEach` over the node list. -/
def scanNodes (st : NodeScanState) (index : Nat) : List WorkflowNode → NodeScanState
  | [] => st
  | node :: rest => scanNodes (scanNode st node index) (index + 1) rest

/-- Embedding of `validateWorkflowNodes`.  The Lean input is always an array,
so the `Array.isArray` guard of the source never fires here. -/
def validateWorkflowNodes (nodes : List WorkflowNode) : WorkflowValidationResult :=
  let st := scanNodes ⟨[], [], [], []⟩ 0 nodes
  let errors := st.duplicateIds.foldl
    (fun es id => es ++ ["Duplicate node ID found: " ++ id]) st.errors
  { isValid := errors.length == 0
    errors := errors
    warnings := st.warnings }

/-- State of the depth-first traversal of `detectCycles`: the `visited` and
`recursionStack` sets and the accumulated cycle list. -/
structure DfsState where
  visited : List (Option String)
  stack : List (Option String)
  cycles : List (List (Option String))

/-- The recursive `dfs` of `detectCycles`.  The fuel argument only bounds the
recursion depth; every nested call is made on a node that was unvisited and is
marked visited first, so a depth of `nodes.length + edges.length + 1` can
never be exhausted — the `0` branch is unreachable from `detectCycles`. -/
def dfs (adj : JsMap (Option String) (List (Option String))) :
    Nat → Option String → List (Option String) → DfsState → DfsState
  | 0, _, _, st => st
  | fuel + 1, nodeId, path, st =>
    let st := { st with visited := JsSet.add st.visited nodeId,
                        stack := JsSet.add st.stack nodeId }
    let path := path ++ [nodeId]
    let st := ((adj.get nodeId).getD []).foldl (fun st neighbor =>
        if !(st.visited.contains neighbor) then
          dfs adj fuel neighbor path st
        else if st.stack.contains neighbor then
          let start := if path.contains neighbor then path.indexOf neighbor
            else path.length - 1
          { st with cycles := st.cycles ++ [path.drop start ++ [neighbor]] }
        else st) st
    { st with stack := st.stack.erase nodeId }

/-- Embedding of `detectCycles`: DFS from every unvisited node. -/
def detectCycles (nodes : List WorkflowNode) (edges : List WorkflowEdge) :
    List (List (Option String)) :=
  let adjInit : JsMap (Option String) (List (Option String)) :=
    nodes.foldl (fun m node => m.set node.id []) JsMap.empty
  let adj := edges.foldl (fun m edge =>
      let neighbors := (m.get edge.source).getD []
      m.set edge.source (neighbors ++ [edge.target])) adjInit
  let st := nodes.foldl (fun st node =>
      if !(st.visited.contains node.id) then
        dfs adj (nodes.length + edges.length + 1) node.id [] st
      else st)
    (⟨[], [], []⟩ : DfsState)
  st.cycles

/-- State of the `edges.forEach` loop of `validateWorkflowEdges`. -/
structure EdgeScanState where
  errors : List String
  edgeIds : List String

/-- One iteration of the `edges.forEach` body of `validateWorkflowEdges`. -/
def scanEdge (nodeIds : List (Option String)) (st : EdgeScanState)
    (edge : WorkflowEdge) (index : Nat) : EdgeScanState :=
  let st :=
    if !strTruthy edge.id then
      { st with errors := st.errors ++
        ["Edge at index " ++ toString index ++ " is missing required \'id\' field"] }
    else if st.edgeIds.contains (showOptStr edge.id) then
      { st with errors := st.errors ++
        ["Duplicate edge ID found: " ++ showOptStr edge.id] }
    else { st with edgeIds := JsSet.add st.edgeIds (showOptStr edge.id) }
  let st :=
    if !strTruthy edge.source then
      { st with errors := st.errors ++
        ["Edge " ++ idOrIndex edge.id index ++ " is missing required \'source\' field"] }
    else if !(nodeIds.contains edge.source) then
      { st with errors := st.errors ++
        ["Edge " ++ idOrIndex edge.id index ++ " references non-existent source node: "
          ++ showOptStr edge.source] }
    else st
  let st :=
    if !strTruthy edge.target then
      { st with errors := st.errors ++
        ["Edge " ++ idOrIndex edge.id index ++ " is missing required \'target\' field"] }
    else if !(nodeIds.contains edge.target) then
      { st with errors := st.errors ++
        ["Edge " ++ idOrIndex edge.id index ++ " references non-existent target node: "
          ++ showOptStr edge.target] }
    else st
  if edge.source = edge.target then
    { st with errors := st.errors ++
      ["Edge " ++ idOrIndex edge.id index ++ " is self-referencing (source and target are the same)"] }
  else st

/-- The indexed `forEach` over the edge list. -/
def scanEdges (nodeIds : List (Option String)) (st : EdgeScanState) (index : Nat) :
    List WorkflowEdge → EdgeScanState
  | [] => st
  | edge :: rest => scanEdges nodeIds (scanEdge nodeIds st edge index) (index + 1) rest

/-- Embedding of `validateWorkflowEdges`.  As with the node validator, the
input is always an array here. -/
def validateWorkflowEdges (edges : List WorkflowEdge) (nodes : List WorkflowNode) :
    WorkflowValidationResult :=
  let nodeIds := nodes.foldl (fun s node => JsSet.add s node.id) []
  let st := scanEdges nodeIds ⟨[], []⟩ 0 edges
  let connectedNodes := edges.foldl
    (fun s edge => JsSet.add (JsSet.add s edge.source) edge.target) []
  let warnings := nodes.foldl (fun ws node =>
      if !(connectedNodes.contains node.id) then
        ws ++ ["Node " ++ showOptStr node.id ++ " is not connected to any other nodes"]
      else ws) []
  let cycles := detectCycles nodes edges
  let warnings := if cycles.length > 0 then
      warnings ++ ["Workflow contains " ++ toString cycles.length ++
        " cycle(s). This may cause infinite loops during execution."]
    else warnings
  { isValid := st.errors.length == 0
    errors := st.errors
    warnings := warnings }

/-- Construction of the `inDegree` and `adjacencyList` maps of
`validateExecutionOrder`: every node id is keyed with in-degree 0 and an
empty successor list, then every edge appends its target to the adjacency of
its source and increments the in-degree of its target. -/
def kahnInit (nodes : List WorkflowNode) (edges : List WorkflowEdge) :
    JsMap (Option String) Int × JsMap (Option String) (List (Option String)) :=
  let init := nodes.foldl
    (fun (p : JsMap (Option String) Int × JsMap (Option String) (List (Option String))) node =>
      (p.1.set node.id 0, p.2.set node.id []))
    (JsMap.empty, JsMap.empty)
  edges.foldl (fun p edge =>
    let neighbors := (p.2.get edge.source).getD []
    let adj := p.2.set edge.source (neighbors ++ [edge.target])
    let deg := p.1.set edge.target ((p.1.get edge.target).getD 0 + 1)
    (deg, adj)) init

/-- The inner `neighbors.forEach` of the while loop of
`validateExecutionOrder`: decrement the in-degree of each neighbor and
enqueue a neighbor whose in-degree reaches exactly 0. -/
def kahnStep (inDeg : JsMap (Option String) Int) (queue : List (Option String))
    (neighbors : List (Option String)) :
    JsMap (Option String) Int × List (Option String) :=
  neighbors.foldl (fun p neighbor =>
      let newDegree := (p.1.get neighbor).getD 0 - 1
      (p.1.set neighbor newDegree, if newDegree = 0 then p.2 ++ [neighbor] else p.2))
    (inDeg, queue)

/-- The while loop of `validateExecutionOrder`.  The fuel bounds the number
of iterations.  Each iteration pops one queue entry, and an entry is enqueued
past the seed only when its in-degree reaches exactly 0 — the stored degree
of a key strictly decreases with each decrement, so each key is enqueued that
way at most once and the total number of iterations never exceeds
(number of seeded entries) + (number of edge targets), which is at most the
fuel `validateExecutionOrder` supplies: the `0` branch is unreachable. -/
def kahnLoop (adj : JsMap (Option String) (List (Option String))) :
    Nat → List (Option String) → JsMap (Option String) Int → List (Option String) →
    List (Option String)
  | _, [], _, result => result
  | 0, _ :: _, _, result => result
  | fuel + 1, current :: rest, inDeg, result =>
    let step := kahnStep inDeg rest ((adj.get current).getD [])
    kahnLoop adj fuel step.2 step.1 (result ++ [current])

/-- Embedding of `validateExecutionOrder`: Kahn topological sort.  The ready
queue is seeded by iterating the `inDegree` map in key-insertion order and
keeping the keys of degree 0. -/
def validateExecutionOrder (nodes : List WorkflowNode) (edges : List WorkflowEdge) :
    List (Option String) :=
  let maps := kahnInit nodes edges
  let queue := maps.1.keys.filter (fun k => maps.1.get k = some 0)
  kahnLoop maps.2 (maps.1.keys.length + edges.length) queue maps.1 []

/-- A JS runtime value as it flows through the engine: the payloads are
opaque JSON-like data.  `undef` is the JS `undefined`, distinct from `null`. -/
inductive JsValue where
  | undef
  | null
  | bool (b : Bool)
  | num (n : Int)
  | str (s : String)
  | arr (elems : List JsValue)
  | obj (fields : List (String × JsValue))

/-- JS truthiness of a runtime value. -/
def JsValue.truthy : JsValue → Bool
  | .undef => false
  | .null => false
  | .bool b => b
  | .num n => !(n = 0)
  | .str s => !(s = "")
  | .arr _ => true
  | .obj _ => true

/-- The JS `a || b` operator on runtime values. -/
def jsOr (a b : JsValue) : JsValue :=
  if a.truthy then a else b

/-- JS object property assignment `o[k] = v`: overwrite in place when the key
exists, append otherwise. -/
def objSet (fields : List (String × JsValue)) (k : String) (v : JsValue) :
    List (String × JsValue) :=
  if (fields.map Prod.fst).contains k then
    fields.map (fun p => if p.1 = k then (k, v) else p)
  else fields ++ [(k, v)]

/-- A `NodeExecution` record (a StepExecution) in its finalized state.  The
`input_data` is the value the source stores at creation; uuid and wall-clock
timestamp fields are omitted, the elapsed time is kept. -/
structure NodeExecution where
  node_id : Option String
  node_type : Option String
  status : String
  input_data : JsValue
  output_data : Option JsValue := none
  error_message : Option String := none
  execution_time_ms : Option Int := none

/-- A `WorkflowExecution` record (an ExecutionRun).  `output_data` is part of
the source interface (`output_data?: any`); a field left `none` models a
field the source never assigns. -/
structure WorkflowExecution where
  workflow_id : String
  status : String
  input_data : JsValue
  output_data : Option JsValue := none
  error_message : Option String := none
  execution_time_ms : Option Int := none

structure WorkflowConfig where
  nodes : List WorkflowNode
  edges : List WorkflowEdge

structure Workflow where
  id : String
  config : WorkflowConfig

/-- The per-run mutable `ExecutionContext`: node and edge sets, the carried
`currentData`, and the map of finalized node executions in creation order. -/
structure ExecutionContext where
  nodes : List WorkflowNode
  edges : List WorkflowEdge
  currentData : JsValue
  nodeExecutions : JsMap (Option String) NodeExecution

/-- The capability registry behind the dispatch switch of `executeNode`: one
executor per step kind, `execute(configuration, input) -> output | failure`. -/
structure Capabilities where
  database : Option NodeConfig → JsValue → Except String JsValue
  ai : Option NodeConfig → JsValue → Except String JsValue
  transform : Option NodeConfig → JsValue → Except String JsValue
  output : Option NodeConfig → JsValue → Except String JsValue

/-- Embedding of `getNodeInputData`: effective-input resolution from the
predecessor edges.  With no predecessor the carried data is returned; with
one predecessor `predecessorExecution?.output_data || null`; with several a
JS object keyed by each predecessor edge source, keeping only truthy
recorded outputs. -/
def getNodeInputData (node : WorkflowNode) (context : ExecutionContext) : JsValue :=
  match context.edges.filter (fun edge => edge.target = node.id) with
  | [] => context.currentData
  | [e] =>
    match context.nodeExecutions.get e.source with
    | some pe =>
      match pe.output_data with
      | some o => if o.truthy then o else JsValue.null
      | none => JsValue.null
    | none => JsValue.null
  | pes =>
    JsValue.obj (pes.foldl (fun combined edge =>
      match context.nodeExecutions.get edge.source with
      | some pe =>
        match pe.output_data with
        | some o => if o.truthy then objSet combined (showOptStr edge.source) o
                    else combined
        | none => combined
      | none => combined) [])

/-- The dispatch switch of `executeNode`: route the node kind to the
registered capability.  Reading `.config` of an absent `data` rethrows the
JS TypeError; an unrecognized kind throws `Unknown node type`. -/
def dispatchNode (caps : Capabilities) (node : WorkflowNode) (inputData : JsValue) :
    Except String JsValue :=
  match node.data with
  | none => Except.error "Cannot read properties of undefined (reading \'config\')"
  | some d =>
    match node.type with
    | some "database" => caps.database d.config inputData
    | some "ai" => caps.ai d.config inputData
    | some "transform" => caps.transform d.config inputData
    | some "output" => caps.output d.config inputData
    | t => Except.error ("Unknown node type: " ++ showOptStr t)

/-- Embedding of `executeNode`.  The record is created with the carried
`currentData` as its `input_data`, the effective input is resolved, the
capability for the node kind is dispatched, and the record is finalized as
`success` or `error`; an error is returned to the caller (the thrown
exception).  `tick` counts the `Date.now()` reads taken from the `clock`
oracle. -/
def executeNode (caps : Capabilities) (clock : Nat → Int) (node : WorkflowNode)
    (tick : Nat) (context : ExecutionContext) :
    (Nat × ExecutionContext) × Option String :=
  let startTime := clock tick
  let tick := tick + 1
  let nodeExecution : NodeExecution :=
    { node_id := node.id, node_type := node.type, status := "running",
      input_data := context.currentData }
  let inputData := getNodeInputData node context
  match dispatchNode caps node inputData with
  | Except.ok outputData =>
    let executionTime := clock tick - startTime
    let tick := tick + 1
    let fin := { nodeExecution with
      status := "success"
      output_data := some outputData
      execution_time_ms := some executionTime }
    ((tick, { context with
      nodeExecutions := context.nodeExecutions.set node.id fin
      currentData := outputData }), none)
  | Except.error msg =>
    let executionTime := clock tick - startTime
    let tick := tick + 1
    let fin := { nodeExecution with
      status := "error"
      error_message := some msg
      execution_time_ms := some executionTime }
    ((tick, { context with nodeExecutions := context.nodeExecutions.set node.id fin }),
     some msg)

/-- The `for (const nodeId of executionOrder)` loop of `executeWorkflow`:
resolve each node id and execute it, aborting at the first error. -/
def runOrder (caps : Capabilities) (clock : Nat → Int) (nodes : List WorkflowNode) :
    List (Option String) → Nat → ExecutionContext → (Nat × ExecutionContext) × Option String
  | [], tick, context => ((tick, context), none)
  | nodeId :: rest, tick, context =>
    match nodes.find? (fun n => n.id = nodeId) with
    | none => ((tick, context),
        some ("Node " ++ showOptStr nodeId ++ " not found in workflow"))
    | some node =>
      match executeNode caps clock node tick context with
      | (st, none) => runOrder caps clock nodes rest st.1 st.2
      | (st, some msg) => (st, some msg)

/-- Embedding of `executeWorkflow`.  A run record is created `running`, the
execution order is computed, a short order fails the run before any step
runs, otherwise the order is executed and the run is finalized `completed` or
`error`; in every case the finalized run record is returned, never an
exception.  The returned triple is (run record, final context, final tick);
on the short-order path the source never creates the context, so the fresh
empty context is returned.  The run record `output_data` is never assigned
by the source and stays `none` on every path. -/
def executeWorkflow (caps : Capabilities) (clock : Nat → Int) (workflow : Workflow)
    (inputData : JsValue) : WorkflowExecution × ExecutionContext × Nat :=
  let startTime := clock 0
  let tick := 1
  let execution : WorkflowExecution :=
    { workflow_id := workflow.id, status := "running", input_data := inputData }
  let executionOrder := validateExecutionOrder workflow.config.nodes workflow.config.edges
  let context : ExecutionContext :=
    { nodes := workflow.config.nodes, edges := workflow.config.edges,
      currentData := jsOr inputData JsValue.null, nodeExecutions := JsMap.empty }
  if executionOrder.length ≠ workflow.config.nodes.length then
    let executionTime := clock tick - startTime
    ({ execution with
        status := "error"
        error_message := some "Workflow contains cycles or invalid dependencies"
        execution_time_ms := some executionTime }, context, tick + 1)
  else
    match runOrder caps clock workflow.config.nodes executionOrder tick context with
    | ((tickEnd, contextEnd), none) =>
      let executionTime := clock tickEnd - startTime
      ({ execution with
          status := "completed"
          execution_time_ms := some executionTime }, contextEnd, tickEnd + 1)
    | ((tickEnd, contextEnd), some msg) =>
      let executionTime := clock tickEnd - startTime
      ({ execution with
          status := "error"
          error_message := some msg
          execution_time_ms := some executionTime }, contextEnd, tickEnd + 1)

/-- The dependency relation of a connection set: `edgeRel edges s t` holds
when some connection goes from step `s` to step `t`. -/
def edgeRel (edges : List WorkflowEdge) (s t : Option String) : Prop :=
  ∃ e ∈ edges, e.source = s ∧ e.target = t

/-- The in-degree of a step id under a connection set. -/
def inDegCount (edges : List WorkflowEdge) (v : Option String) : Nat :=
  edges.countP (fun e => decide (e.target = v))

/-- The in-degree of `v` counting only connections whose source has not yet
been emitted into `res`: the quantity the running `inDegree` map of the Kahn
loop holds for `v`. -/
def remDeg (edges : List WorkflowEdge) (res : List (Option String)) (v : Option String) : Nat :=
  edges.countP (fun e => decide (e.target = v) && !(decide (e.source ∈ res)))

/-- The findings the `ai` arm of `validateNodeConfig` appends, in order. -/
def aiErrs (nid : String) (config : NodeConfig) : List String :=
  (if !strTruthy config.model then
    ["AI node " ++ nid ++ " is missing model specification"] else []) ++
  (if !strTruthy config.prompt then
    ["AI node " ++ nid ++ " is missing prompt"] else []) ++
  (match config.temperature with
   | some t => if t ≠ 0 ∧ (t < 0 ∨ 1 < t) then
      ["AI node " ++ nid ++ " has invalid temperature (must be between 0 and 1)"] else []
   | none => []) ++
  (match config.maxTokens with
   | some m => if m ≠ 0 ∧ m < 1 then
      ["AI node " ++ nid ++ " has invalid maxTokens (must be positive)"] else []
   | none => [])

/-- The duplicate-id error message of `validateWorkflowNodes`. -/
def dupNodeIdMsg (id : String) : String :=
  "Duplicate node ID found: " ++ id

/-- The number of steps of `nodes` whose id field is exactly `some s`. -/
def idCount (nodes : List WorkflowNode) (s : String) : Nat :=
  nodes.countP (fun n => decide (n.id = some s))

/-- The contribution of one predecessor edge to the fan-in object of
`getNodeInputData`: the key is the source id, the value its recorded output;
a missing predecessor execution, a missing output and a falsy output all
contribute nothing. -/
def faninEntry (context : ExecutionContext) (edge : WorkflowEdge) :
    Option (String × JsValue) :=
  match context.nodeExecutions.get edge.source with
  | some pe =>
    match pe.output_data with
    | some o => if o.truthy then some (showOptStr edge.source, o) else none
    | none => none
  | none => none

/-- Concrete data: a capability registry whose transform echoes its input,
whose database capability answers according to the configured host, and
whose ai capability fails. -/
def capsDemo : Capabilities :=
  { database := fun cfg _ =>
      match cfg with
      | some c => if c.host = some "hx" then Except.ok (JsValue.obj [("a", JsValue.num 1)])
                  else Except.ok (JsValue.obj [("b", JsValue.num 2)])
      | none => Except.error "no database configuration"
    ai := fun _ _ => Except.error "AI service failed"
    transform := fun _ input => Except.ok input
    output := fun _ _ => Except.ok JsValue.null }

/-- Concrete data: a clock oracle. -/
def clockDemo : Nat → Int := fun n => Int.ofNat (10 * n)

def nodeDemoX : WorkflowNode :=
  { id := some "X", type := some "database",
    data := some { label := some "X", config := some { host := some "hx" } },
    position := some { x := some 0, y := some 0 } }

def nodeDemoY : WorkflowNode :=
  { id := some "Y", type := some "database",
    data := some { label := some "Y", config := some { host := some "hy" } },
    position := some { x := some 0, y := some 1 } }

def nodeDemoZ : WorkflowNode :=
  { id := some "Z", type := some "transform",
    data := some { label := some "Z", config := some { operation := some "map", script := some "s" } },
    position := some { x := some 1, y := some 0 } }

def nodeDemoAi : WorkflowNode :=
  { id := some "W", type := some "ai",
    data := some { label := some "W", config := some { model := some "m", prompt := some "p" } },
    position := some { x := some 2, y := some 0 } }

def edgeDemoXZ : WorkflowEdge := { id := some "e1", source := some "X", target := some "Z" }
def edgeDemoYZ : WorkflowEdge := { id := some "e2", source := some "Y", target := some "Z" }
def edgeDemoXW : WorkflowEdge := { id := some "e3", source := some "X", target := some "W" }
def edgeDemoWZ : WorkflowEdge := { id := some "e4", source := some "W", target := some "Z" }
def edgeDemoZX : WorkflowEdge := { id := some "e5", source := some "Z", target := some "X" }

/-- Concrete data: a fan-in workflow X -> Z, Y -> Z. -/
def wfFan : Workflow :=
  { id := "wfan", config := { nodes := [nodeDemoX, nodeDemoY, nodeDemoZ],
                              edges := [edgeDemoXZ, edgeDemoYZ] } }

/-- Concrete data: a chain X -> W -> Z whose middle ai step fails. -/
def wfChain : Workflow :=
  { id := "wchain", config := { nodes := [nodeDemoX, nodeDemoAi, nodeDemoZ],
                                edges := [edgeDemoXW, edgeDemoWZ] } }

/-- Concrete data: a single database step and no connections. -/
def wfSingle : Workflow :=
  { id := "wsingle", config := { nodes := [nodeDemoX], edges := [] } }

/-- Concrete data: a two-step cycle X -> Z -> X. -/
def wfCyc : Workflow :=
  { id := "wcyc", config := { nodes := [nodeDemoX, nodeDemoZ],
                              edges := [edgeDemoXZ, edgeDemoZX] } }

/-- Concrete data: a finished predecessor execution whose recorded output is
the falsy number 0. -/
def recDemoX0 : NodeExecution :=
  { node_id := some "X", node_type := some "database", status := "success",
    input_data := JsValue.null, output_data := some (JsValue.num 0) }

/-- Concrete data: a finished predecessor execution with a truthy object
output. -/
def recDemoXa : NodeExecution :=
  { node_id := some "X", node_type := some "database", status := "success",
    input_data := JsValue.null, output_data := some (JsValue.obj [("a", JsValue.num 1)]) }

def recDemoYb : NodeExecution :=
  { node_id := some "Y", node_type := some "database", status := "success",
    input_data := JsValue.null, output_data := some (JsValue.obj [("b", JsValue.num 2)]) }

/-- Concrete data: a fan-in context in which X recorded the falsy output 0
and Y recorded a truthy object. -/
def ctxFanFalsy : ExecutionContext :=
  { nodes := [nodeDemoX, nodeDemoY, nodeDemoZ], edges := [edgeDemoXZ, edgeDemoYZ],
    currentData := JsValue.null,
    nodeExecutions := (JsMap.empty.set (some "X") recDemoX0).set (some "Y") recDemoYb }

/-- Concrete data: the fan-in context of the worked example of the spec,
with truthy outputs on both predecessors. -/
def ctxFanTruthy : ExecutionContext :=
  { nodes := [nodeDemoX, nodeDemoY, nodeDemoZ], edges := [edgeDemoXZ, edgeDemoYZ],
    currentData := JsValue.null,
    nodeExecutions := (JsMap.empty.set (some "X") recDemoXa).set (some "Y") recDemoYb }

/-- Concrete data: an ai node and a configuration with `maxTokens = 0`. -/
def aiNodeCE : WorkflowNode := { id := some "n1", type := some "ai" }

def aiCfgCE : NodeConfig := { model := some "gpt-4", prompt := some "p", maxTokens := some 0 }

/-- Concrete data: a three-step line A -> B -> C for the scheduler. -/
def nodeA : WorkflowNode := { id := some "A" }
def nodeB : WorkflowNode := { id := some "B" }
def nodeC : WorkflowNode := { id := some "C" }
def edgeAB : WorkflowEdge := { id := some "f1", source := some "A", target := some "B" }
def edgeBC : WorkflowEdge := { id := some "f2", source := some "B", target := some "C" }

/-- Concrete data: an ai configuration with an out-of-range temperature and
a negative max-output-length. -/
def aiCfgW : NodeConfig :=
  { model := some "m", prompt := some "p", temperature := some 2, maxTokens := some (-3) }

theorem JsMap.get_set {κ α : Type} [DecidableEq κ] (m : JsMap κ α) (k x : κ) (v : α) :
    (m.set k v).get x = if x = k then some v else m.get x := rfl

theorem JsMap.get_set_self {κ α : Type} [DecidableEq κ] (m : JsMap κ α) (k : κ) (v : α) :
    (m.set k v).get k = some v := by
  simp [JsMap.get_set]

theorem JsMap.get_set_ne {κ α : Type} [DecidableEq κ] (m : JsMap κ α) (k x : κ) (v : α)
    (h : x ≠ k) : (m.set k v).get x = m.get x := by
  simp [JsMap.get_set, h]

theorem JsMap.keys_set {κ α : Type} [DecidableEq κ] (m : JsMap κ α) (k : κ) (v : α) :
    (m.set k v).keys = if k ∈ m.keys then m.keys else m.keys ++ [k] := rfl

theorem JsMap.get_empty {κ α : Type} [DecidableEq κ] (k : κ) :
    (JsMap.empty : JsMap κ α).get k = none := rfl

theorem String.data_append' (s t : String) : (s ++ t).data = s.data ++ t.data :=
  String.data_append s t

/-- Appending to the same front factor is injective, so distinct suffixes
give distinct strings. -/
theorem append_ne_of_ne_right (a : String) {b c : String} (h : b ≠ c) :
    a ++ b ≠ a ++ c := by
  intro he
  apply h
  apply String.ext
  have hd : (a ++ b).data = (a ++ c).data := by rw [he]
  rw [String.data_append', String.data_append'] at hd
  exact List.append_cancel_left hd

/-- C7.  For every step set and connection set, each validator reports
`isValid` exactly when its error list is empty: warnings — the disconnected
step, cycle and missing-optional-configuration findings all land in the
warning list — never affect validity. -/
theorem validator_isValid_iff_no_errors (nodes : List WorkflowNode)
    (edges : List WorkflowEdge) :
    ((validateWorkflowNodes nodes).isValid = true ↔
      (validateWorkflowNodes nodes).errors = []) ∧
    ((validateWorkflowEdges edges nodes).isValid = true ↔
      (validateWorkflowEdges edges nodes).errors = []) := by
  constructor
  · simp [validateWorkflowNodes, List.length_eq_zero]
  · simp [validateWorkflowEdges, List.length_eq_zero]

/-- The `ai` arm of `validateNodeConfig` appends exactly the `aiErrs`
findings to the incoming error list and leaves the warnings alone. -/
theorem validateNodeConfig_ai (node : WorkflowNode) (config : NodeConfig)
    (errors warnings : List String) (hty : node.type = some "ai") :
    validateNodeConfig node config errors warnings =
      (errors ++ aiErrs (showOptStr node.id) config, warnings) := by
  cases htemp : config.temperature <;> cases hmax : config.maxTokens <;>
    simp only [validateNodeConfig, hty, aiErrs, htemp, hmax] <;>
    split_ifs <;> simp

/-- C9 (amended).  For an ai-processor step with configuration present, the
checker errors when the model identifier or the prompt is missing, errors
when a sampling-temperature is present and lies outside [0,1], and errors
when a max-output-length is present, nonzero and below 1 — but a present
max-output-length of exactly 0 is falsy in JS, skips the guard and produces
no error. -/
theorem ai_config_checks (node : WorkflowNode) (config : NodeConfig)
    (errors warnings : List String) (hty : node.type = some "ai") :
    ∃ es, validateNodeConfig node config errors warnings = (errors ++ es, warnings) ∧
      (strTruthy config.model = false →
        ("AI node " ++ showOptStr node.id ++ " is missing model specification") ∈ es) ∧
      (strTruthy config.prompt = false →
        ("AI node " ++ showOptStr node.id ++ " is missing prompt") ∈ es) ∧
      (∀ t : ℚ, config.temperature = some t → t < 0 ∨ 1 < t →
        ("AI node " ++ showOptStr node.id ++ " has invalid temperature (must be between 0 and 1)") ∈ es) ∧
      (∀ m : ℚ, config.maxTokens = some m → m ≠ 0 → m < 1 →
        ("AI node " ++ showOptStr node.id ++ " has invalid maxTokens (must be positive)") ∈ es) ∧
      (config.maxTokens = some 0 →
        ("AI node " ++ showOptStr node.id ++ " has invalid maxTokens (must be positive)") ∉ es) := by
  refine ⟨aiErrs (showOptStr node.id) config, validateNodeConfig_ai node config errors warnings hty,
    ?_, ?_, ?_, ?_, ?_⟩
  · intro h
    simp [aiErrs, h]
  · intro h
    simp [aiErrs, h]
  · intro t ht hout
    have hne : t ≠ 0 := by
      rcases hout with h | h
      · exact ne_of_lt h
      · exact ne_of_gt (lt_trans zero_lt_one h)
    simp [aiErrs, ht, hne, hout]
  · intro m hm hne hlt
    simp [aiErrs, hm, hne, hlt]
  · intro hm
    have h1 : ¬ ((0 : ℚ) ≠ 0 ∧ (0 : ℚ) < 1) := by simp
    simp only [aiErrs, hm, h1, if_false, List.append_nil]
    intro hmem
    have hm1 : ("AI node " ++ showOptStr node.id ++ " has invalid maxTokens (must be positive)") ≠
        ("AI node " ++ showOptStr node.id ++ " is missing model specification") := by
      apply append_ne_of_ne_right
      decide
    have hm2 : ("AI node " ++ showOptStr node.id ++ " has invalid maxTokens (must be positive)") ≠
        ("AI node " ++ showOptStr node.id ++ " is missing prompt") := by
      apply append_ne_of_ne_right
      decide
    have hm3 : ("AI node " ++ showOptStr node.id ++ " has invalid maxTokens (must be positive)") ≠
        ("AI node " ++ showOptStr node.id ++ " has invalid temperature (must be between 0 and 1)") := by
      apply append_ne_of_ne_right
      decide
    rcases List.mem_append.mp hmem with hmem | hmem
    · rcases List.mem_append.mp hmem with hmem | hmem
      · rcases hm1 (by split at hmem <;> simp_all)
      · rcases hm2 (by split at hmem <;> simp_all)
    · rcases hm3 (by split at hmem <;> simp_all)

/-- C9 witness: on `aiCfgW` the checker instance reports both the
out-of-range temperature and the negative max-output-length. -/
theorem ai_config_checks_witness :
    ∃ es, validateNodeConfig aiNodeCE aiCfgW [] [] = ([] ++ es, []) ∧
      ("AI node " ++ showOptStr aiNodeCE.id ++
        " has invalid temperature (must be between 0 and 1)") ∈ es ∧
      ("AI node " ++ showOptStr aiNodeCE.id ++
        " has invalid maxTokens (must be positive)") ∈ es := by
  obtain ⟨es, h1, _, _, h4, h5, _⟩ := ai_config_checks aiNodeCE aiCfgW [] [] rfl
  refine ⟨es, h1, ?_, ?_⟩
  · exact h4 2 rfl (Or.inr (by norm_num))
  · exact h5 (-3) rfl (by norm_num) (by norm_num)

/-- C9 counterexample: a present max-output-length of exactly 0 — below 1,
so the claim as stated demands an error — produces no finding at all. -/
theorem ai_maxTokens_zero_unflagged :
    validateNodeConfig aiNodeCE aiCfgCE [] [] = ([], []) := by
  decide

/-- A fan-in entry always carries the printed source id as its key. -/
theorem faninEntry_key (context : ExecutionContext) (e : WorkflowEdge)
    (kv : String × JsValue) (h : faninEntry context e = some kv) :
    kv.1 = showOptStr e.source := by
  simp only [faninEntry] at h
  split at h
  · split at h
    · split at h
      · cases h
        rfl
      · cases h
    · cases h
  · cases h

/-- The fold body of the fan-in branch of `getNodeInputData`, expressed
through `faninEntry`. -/
theorem fanin_step_eq (context : ExecutionContext) :
    (fun (combined : List (String × JsValue)) (edge : WorkflowEdge) =>
      match context.nodeExecutions.get edge.source with
      | some pe =>
        match pe.output_data with
        | some o => if o.truthy then objSet combined (showOptStr edge.source) o
                    else combined
        | none => combined
      | none => combined) =
    (fun (combined : List (String × JsValue)) (edge : WorkflowEdge) =>
      match faninEntry context edge with
      | some kv => objSet combined kv.1 kv.2
      | none => combined) := by
  funext combined edge
  simp only [faninEntry]
  cases hg : context.nodeExecutions.get edge.source with
  | none => simp
  | some pe =>
    cases ho : pe.output_data with
    | none => simp [ho]
    | some o =>
      by_cases ht : o.truthy
      · simp [ho, ht]
      · simp [ho, ht]

/-- The fan-in accumulation of `getNodeInputData`, run over predecessor edges
with pairwise distinct printed sources and an accumulator free of those keys,
appends exactly one entry per predecessor with a truthy recorded output. -/
theorem fanin_foldl (context : ExecutionContext) :
    ∀ (pes : List WorkflowEdge) (acc : List (String × JsValue)),
    (∀ e ∈ pes, ∀ p ∈ acc, p.1 ≠ showOptStr e.source) →
    (pes.map (fun e => showOptStr e.source)).Nodup →
    pes.foldl (fun combined edge =>
      match faninEntry context edge with
      | some kv => objSet combined kv.1 kv.2
      | none => combined) acc = acc ++ pes.filterMap (faninEntry context) := by
  intro pes
  induction pes with
  | nil => intro acc _ _; simp
  | cons e rest ih =>
    intro acc hdisj hnd
    have hnd' : (rest.map (fun e => showOptStr e.source)).Nodup :=
      (List.nodup_cons.mp hnd).2
    have hknd : showOptStr e.source ∉ rest.map (fun e => showOptStr e.source) :=
      (List.nodup_cons.mp hnd).1
    cases hent : faninEntry context e with
    | none =>
      simp only [List.foldl_cons, List.filterMap_cons, hent]
      exact ih acc (fun e' he' p hp => hdisj e' (List.mem_cons_of_mem _ he') p hp) hnd'
    | some kv =>
      have hk : kv.1 = showOptStr e.source := faninEntry_key context e kv hent
      have hfree : ((acc.map Prod.fst).contains kv.1) = false := by
        simp only [List.contains_eq_any_beq, List.any_eq_false]
        intro k hmem
        simp only [List.mem_map] at hmem
        obtain ⟨p, hp, hpk⟩ := hmem
        simp only [beq_iff_eq]
        intro hkk
        exact hdisj e (List.mem_cons_self e rest) p hp (hpk.trans (hkk.symm.trans hk))
      have hobj : objSet acc kv.1 kv.2 = acc ++ [kv] := by
        unfold objSet
        rw [hfree]
        simp
      simp only [List.foldl_cons, List.filterMap_cons, hent, hobj]
      rw [ih (acc ++ [kv]) ?_ hnd']
      · simp
      · intro e' he' p hp
        rcases List.mem_append.mp hp with hpa | hpb
        · exact hdisj e' (List.mem_cons_of_mem _ he') p hpa
        · have hpe : p = kv := by simpa using hpb
          subst hpe
          rw [hk]
          intro hcontra
          exact hknd (hcontra ▸ List.mem_map_of_mem (fun e => showOptStr e.source) he')

/-- C5 (amended).  For a step with at least two incoming connections whose
predecessor sources print to pairwise distinct keys, the effective input is
the JS object holding one entry per predecessor edge whose recorded output is
present and truthy, keyed by the predecessor id and valued by that output;
predecessors with no recorded execution, no recorded output, or a falsy
recorded output (such as the number 0) are omitted. -/
theorem fanin_effective_input (node : WorkflowNode) (context : ExecutionContext)
    (h2 : 2 ≤ (context.edges.filter (fun e => e.target = node.id)).length)
    (hnd : ((context.edges.filter (fun e => e.target = node.id)).map
      (fun e => showOptStr e.source)).Nodup) :
    getNodeInputData node context =
      JsValue.obj ((context.edges.filter (fun e => e.target = node.id)).filterMap
        (faninEntry context)) := by
  rcases hfilter : context.edges.filter (fun e => e.target = node.id) with _ | ⟨a, _ | ⟨b, l⟩⟩
  · rw [hfilter] at h2
    simp at h2
  · rw [hfilter] at h2
    simp at h2
  · rw [hfilter] at hnd
    simp only [getNodeInputData, hfilter]
    rw [fanin_step_eq context]
    rw [fanin_foldl context (a :: b :: l) [] (by intro e _ p hp; cases hp) hnd]
    simp

/-- C5 witness: the worked example of the spec — X and Y feed Z with truthy
outputs, and the effective input of Z maps each predecessor id to its
output. -/
theorem fanin_effective_input_witness :
    getNodeInputData nodeDemoZ ctxFanTruthy =
      JsValue.obj [("X", JsValue.obj [("a", JsValue.num 1)]),
                   ("Y", JsValue.obj [("b", JsValue.num 2)])] := by
  have h := fanin_effective_input nodeDemoZ ctxFanTruthy (by decide) (by decide)
  exact h.trans rfl

/-- C5 counterexample: X executed and recorded the output 0, yet the fan-in
object omits X entirely, against the claim that only predecessors that
produced no output are omitted. -/
theorem fanin_falsy_output_omitted :
    getNodeInputData nodeDemoZ ctxFanFalsy =
      JsValue.obj [("Y", JsValue.obj [("b", JsValue.num 2)])] ∧
    (ctxFanFalsy.nodeExecutions.get (some "X")).map (fun r => r.output_data) =
      some (some (JsValue.num 0)) ∧
    getNodeInputData nodeDemoZ ctxFanFalsy ≠
      JsValue.obj [("X", JsValue.num 0), ("Y", JsValue.obj [("b", JsValue.num 2)])] := by
  refine ⟨rfl, rfl, ?_⟩
  intro h
  rw [show getNodeInputData nodeDemoZ ctxFanFalsy =
    JsValue.obj [("Y", JsValue.obj [("b", JsValue.num 2)])] from rfl] at h
  simp at h

/-- C6 (amended).  The input payload recorded on a StepExecution is the
carried `currentData` at creation time — the run input or the previously
executed step output — not the resolved effective input; the two coincide
when the step has no incoming connection, where the effective input is the
carried data itself. -/
theorem recorded_input_is_carried_data (caps : Capabilities) (clock : Nat → Int)
    (node : WorkflowNode) (tick : Nat) (context : ExecutionContext) :
    ∃ fin, (executeNode caps clock node tick context).1.2.nodeExecutions.get node.id =
      some fin ∧
    fin.input_data = context.currentData ∧
    (context.edges.filter (fun e => e.target = node.id) = [] →
      getNodeInputData node context = context.currentData) := by
  cases hres : dispatchNode caps node (getNodeInputData node context) with
  | ok out =>
    simp only [executeNode, hres]
    exact ⟨_, JsMap.get_set_self _ _ _, rfl,
      fun hnil => by simp [getNodeInputData, hnil]⟩
  | error msg =>
    simp only [executeNode, hres]
    exact ⟨_, JsMap.get_set_self _ _ _, rfl,
      fun hnil => by simp [getNodeInputData, hnil]⟩

/-- C6 counterexample: in the fan-in run X -> Z, Y -> Z with an echoing
transform capability on Z, the input recorded on the StepExecution of Z is
the output of Y (the carried data), while the input actually delivered to
the capability — echoed into the output of Z — is the fan-in object; the two
differ. -/
theorem recorded_input_differs_from_delivered :
    ((executeWorkflow capsDemo clockDemo wfFan JsValue.null).2.1.nodeExecutions.get
      (some "Z")).map (fun r => r.input_data) =
        some (JsValue.obj [("b", JsValue.num 2)]) ∧
    ((executeWorkflow capsDemo clockDemo wfFan JsValue.null).2.1.nodeExecutions.get
      (some "Z")).map (fun r => r.output_data) =
        some (some (JsValue.obj [("X", JsValue.obj [("a", JsValue.num 1)]),
                                 ("Y", JsValue.obj [("b", JsValue.num 2)])])) ∧
    JsValue.obj [("b", JsValue.num 2)] ≠
      JsValue.obj [("X", JsValue.obj [("a", JsValue.num 1)]),
                   ("Y", JsValue.obj [("b", JsValue.num 2)])] := by
  refine ⟨rfl, rfl, ?_⟩
  intro h
  simp at h

/-- C3.  When the computed execution order contains fewer ids than the graph
has steps, the run fails before dispatching anything: no StepExecution is
created, and the returned run record is `error` with the cyclic-or-invalid-
dependencies message. -/
theorem short_order_fails_run (caps : Capabilities) (clock : Nat → Int)
    (workflow : Workflow) (inputData : JsValue)
    (h : (validateExecutionOrder workflow.config.nodes workflow.config.edges).length <
      workflow.config.nodes.length) :
    (executeWorkflow caps clock workflow inputData).1.status = "error" ∧
    (executeWorkflow caps clock workflow inputData).1.error_message =
      some "Workflow contains cycles or invalid dependencies" ∧
    (executeWorkflow caps clock workflow inputData).2.1.nodeExecutions.keys = [] := by
  have hne : (validateExecutionOrder workflow.config.nodes workflow.config.edges).length ≠
      workflow.config.nodes.length := Nat.ne_of_lt h
  simp only [executeWorkflow, if_pos hne]
  exact ⟨trivial, trivial, rfl⟩

/-- C3 witness: the two-step cycle X -> Z -> X yields an empty order, and the
run fails with the scheduling error and an empty execution ledger. -/
theorem short_order_fails_run_witness :
    (executeWorkflow capsDemo clockDemo wfCyc JsValue.null).1.status = "error" ∧
    (executeWorkflow capsDemo clockDemo wfCyc JsValue.null).1.error_message =
      some "Workflow contains cycles or invalid dependencies" ∧
    (executeWorkflow capsDemo clockDemo wfCyc JsValue.null).2.1.nodeExecutions.keys = [] :=
  short_order_fails_run capsDemo clockDemo wfCyc JsValue.null (by decide)

/-- Reduction of `executeNode` on a successful dispatch. -/
theorem executeNode_ok (caps : Capabilities) (clock : Nat → Int) (node : WorkflowNode)
    (tick : Nat) (context : ExecutionContext) (out : JsValue)
    (h : dispatchNode caps node (getNodeInputData node context) = Except.ok out) :
    executeNode caps clock node tick context =
      ((tick + 1 + 1, { context with
        nodeExecutions := context.nodeExecutions.set node.id
          { node_id := node.id, node_type := node.type, status := "success",
            input_data := context.currentData, output_data := some out,
            error_message := none,
            execution_time_ms := some (clock (tick + 1) - clock tick) }
        currentData := out }), none) := by
  simp only [executeNode, h]

/-- Reduction of `executeNode` on a failing dispatch. -/
theorem executeNode_err (caps : Capabilities) (clock : Nat → Int) (node : WorkflowNode)
    (tick : Nat) (context : ExecutionContext) (msg : String)
    (h : dispatchNode caps node (getNodeInputData node context) = Except.error msg) :
    executeNode caps clock node tick context =
      ((tick + 1 + 1, { context with
        nodeExecutions := context.nodeExecutions.set node.id
          { node_id := node.id, node_type := node.type, status := "error",
            input_data := context.currentData, output_data := none,
            error_message := some msg,
            execution_time_ms := some (clock (tick + 1) - clock tick) } }), some msg) := by
  simp only [executeNode, h]


theorem runOrder_spec (caps : Capabilities) (clock : Nat → Int) (nodes : List WorkflowNode) :
    ∀ (order : List (Option String)) (tick : Nat) (context : ExecutionContext)
      (tickEnd : Nat) (ctxEnd : ExecutionContext) (res : Option String),
    runOrder caps clock nodes order tick context = ((tickEnd, ctxEnd), res) →
    (∀ v ∈ order, ∃ n, nodes.find? (fun nd => nd.id = v) = some n) →
    order.Nodup →
    (∀ v ∈ order, context.nodeExecutions.get v = none) →
    (∀ v ∈ order, v ∉ context.nodeExecutions.keys) →
    ctxEnd.nodes = context.nodes ∧ ctxEnd.edges = context.edges ∧
    (∀ v, v ∉ order → ctxEnd.nodeExecutions.get v = context.nodeExecutions.get v) ∧
    (res = none →
      ctxEnd.nodeExecutions.keys = context.nodeExecutions.keys ++ order ∧
      (∀ v ∈ order, ∃ r, ctxEnd.nodeExecutions.get v = some r ∧ r.status = "success") ∧
      (order = [] → ctxEnd.currentData = context.currentData) ∧
      (∀ w, order.getLast? = some w →
        ∃ r, ctxEnd.nodeExecutions.get w = some r ∧
          r.output_data = some ctxEnd.currentData)) ∧
    (∀ msg, res = some msg →
      ∃ k w, order[k]? = some w ∧
        ctxEnd.nodeExecutions.keys = context.nodeExecutions.keys ++ order.take (k + 1) ∧
        (∀ v ∈ order.take k, ∃ r, ctxEnd.nodeExecutions.get v = some r ∧
          r.status = "success") ∧
        (∃ r, ctxEnd.nodeExecutions.get w = some r ∧ r.status = "error" ∧
          r.error_message = some msg)) := by
  intro order
  induction order with
  | nil =>
    intro tick context tickEnd ctxEnd res hrun _ _ _ _
    simp only [runOrder] at hrun
    cases hrun
    refine ⟨rfl, rfl, fun u _ => rfl, fun _ => ⟨by simp, by simp, fun _ => rfl, by simp⟩,
      fun msg hmsg => by cases hmsg⟩
  | cons v rest ih =>
    intro tick context tickEnd ctxEnd res hrun hfind hnodup hfresh hfreshK
    obtain ⟨n, hn⟩ := hfind v (List.mem_cons_self v rest)
    have hnid : n.id = v := by
      have hp := List.find?_some hn
      simpa using hp
    have hvK : v ∉ context.nodeExecutions.keys := hfreshK v (List.mem_cons_self v rest)
    have hvrest : v ∉ rest := (List.nodup_cons.mp hnodup).1
    have hnodup' : rest.Nodup := (List.nodup_cons.mp hnodup).2
    have hfind' : ∀ u ∈ rest, ∃ n', nodes.find? (fun nd => nd.id = u) = some n' :=
      fun u hu => hfind u (List.mem_cons_of_mem _ hu)
    have hkeys1 : ∀ (r : NodeExecution),
        (context.nodeExecutions.set v r).keys = context.nodeExecutions.keys ++ [v] := by
      intro r
      rw [JsMap.keys_set, if_neg hvK]
    have hfresh1 : ∀ (r : NodeExecution), ∀ u ∈ rest,
        (context.nodeExecutions.set v r).get u = none := by
      intro r u hu
      rw [JsMap.get_set_ne]
      · exact hfresh u (List.mem_cons_of_mem _ hu)
      · intro he
        exact hvrest (he ▸ hu)
    have hfreshK1 : ∀ (r : NodeExecution), ∀ u ∈ rest,
        u ∉ (context.nodeExecutions.set v r).keys := by
      intro r u hu
      rw [hkeys1 r]
      intro hmem
      rcases List.mem_append.mp hmem with hk | hk
      · exact hfreshK u (List.mem_cons_of_mem _ hu) hk
      · have : u = v := by simpa using hk
        exact hvrest (this ▸ hu)
    cases hdisp : dispatchNode caps n (getNodeInputData n context) with
    | ok out =>
      have hstep := executeNode_ok caps clock n tick context out hdisp
      rw [hnid] at hstep
      simp only [runOrder, hn, hstep] at hrun
      obtain ⟨hN, hE, hUn, hOk, hErr⟩ :=
        ih (tick + 1 + 1) _ tickEnd ctxEnd res hrun hfind' hnodup'
          (fun u hu => hfresh1 _ u hu) (fun u hu => hfreshK1 _ u hu)
      refine ⟨hN, hE, ?_, ?_, ?_⟩
      · intro u hu
        have hun : u ∉ rest := fun hm => hu (List.mem_cons_of_mem _ hm)
        have huv : u ≠ v := fun he => hu (he ▸ List.mem_cons_self v rest)
        rw [hUn u hun]
        exact JsMap.get_set_ne _ _ _ _ huv
      · intro hnone
        obtain ⟨hK, hS, hC, hL⟩ := hOk hnone
        refine ⟨?_, ?_, ?_, ?_⟩
        · rw [hK, hkeys1]
          simp
        · intro u hu
          rcases List.mem_cons.mp hu with he | hm
          · subst he
            have : ctxEnd.nodeExecutions.get u =
                (context.nodeExecutions.set u _).get u := hUn u hvrest
            rw [this, JsMap.get_set_self]
            exact ⟨_, rfl, rfl⟩
          · exact hS u hm
        · intro habs
          cases habs
        · intro w hw
          cases rest with
          | nil =>
            have hwv : v = w := by simpa using hw
            subst hwv
            have hCur : ctxEnd.currentData = out := hC rfl
            have hgv : ctxEnd.nodeExecutions.get v =
                (context.nodeExecutions.set v _).get v := hUn v hvrest
            rw [hgv, JsMap.get_set_self, hCur]
            exact ⟨_, rfl, rfl⟩
          | cons b bs =>
            rw [List.getLast?_cons_cons] at hw
            exact hL w hw
      · intro msg hmsg
        obtain ⟨k, w, hkw, hK, hS, hErrRec⟩ := hErr msg hmsg
        refine ⟨k + 1, w, ?_, ?_, ?_, hErrRec⟩
        · simpa using hkw
        · rw [hK, hkeys1]
          simp [List.take_succ_cons]
        · intro u hu
          rw [List.take_succ_cons] at hu
          rcases List.mem_cons.mp hu with he | hm
          · subst he
            have hgv : ctxEnd.nodeExecutions.get u =
                (context.nodeExecutions.set u _).get u := hUn u hvrest
            rw [hgv, JsMap.get_set_self]
            exact ⟨_, rfl, rfl⟩
          · exact hS u hm
    | error msg' =>
      have hstep := executeNode_err caps clock n tick context msg' hdisp
      rw [hnid] at hstep
      simp only [runOrder, hn, hstep] at hrun
      cases hrun
      refine ⟨rfl, rfl, ?_, ?_, ?_⟩
      · intro u hu
        have huv : u ≠ v := fun he => hu (he ▸ List.mem_cons_self v rest)
        exact JsMap.get_set_ne _ _ _ _ huv
      · intro habs
        cases habs
      · intro msg hmsg
        cases hmsg
        refine ⟨0, v, by simp, ?_, ?_, ?_⟩
        · rw [hkeys1]
          simp
        · intro u hu
          simp at hu
        · rw [JsMap.get_set_self]
          exact ⟨_, rfl, rfl, rfl⟩

/-- Element-wise split of the not-yet-emitted in-degree test. -/
theorem remDeg_split_elem (res : List (Option String)) (c : Option String)
    (hc : c ∉ res) (e : WorkflowEdge) (v : Option String) :
    (if (decide (e.target = v) && !(decide (e.source ∈ res))) = true then 1 else 0) =
    (if (decide (e.target = v) && !(decide (e.source ∈ res ++ [c]))) = true then 1 else 0) +
    (if (decide (e.target = v) && decide (e.source = c)) = true then 1 else 0) := by
  by_cases h1 : e.target = v <;> by_cases h2 : e.source ∈ res <;>
    by_cases h3 : e.source = c
  all_goals first
    | (subst h3; exact absurd h2 hc)
    | (simp [h1, h2, h3, List.mem_append, hc])

/-- Splitting the not-yet-emitted in-degree of `v` when `c` is emitted. -/
theorem remDeg_split (edges : List WorkflowEdge) (res : List (Option String))
    (c v : Option String) (hc : c ∉ res) :
    remDeg edges res v = remDeg edges (res ++ [c]) v +
      edges.countP (fun e => decide (e.target = v) && decide (e.source = c)) := by
  induction edges with
  | nil => rfl
  | cons e es ih =>
    simp only [remDeg, List.countP_cons] at ih ⊢
    rw [ih, remDeg_split_elem res c hc e v]
    omega

/-- Splitting the count of connections from not-yet-emitted sources when `c`
is emitted. -/
theorem src_split (edges : List WorkflowEdge) (res : List (Option String))
    (c : Option String) (hc : c ∉ res) :
    edges.countP (fun e => !(decide (e.source ∈ res ++ [c]))) +
      edges.countP (fun e => decide (e.source = c)) =
    edges.countP (fun e => !(decide (e.source ∈ res))) := by
  induction edges with
  | nil => rfl
  | cons e es ih =>
    simp only [List.countP_cons]
    have helem :
        (if (!(decide (e.source ∈ res ++ [c]))) = true then 1 else 0) +
          (if (decide (e.source = c)) = true then 1 else 0) =
        (if (!(decide (e.source ∈ res))) = true then 1 else 0) := by
      by_cases h2 : e.source ∈ res <;> by_cases h3 : e.source = c
      · subst h3; exact absurd h2 hc
      · simp [h2, h3, List.mem_append, hc]
      · simp [h2, h3, List.mem_append, hc]
      · simp [h2, h3, List.mem_append, hc]
    omega

/-- The multiplicity of `v` among the successors of `c` equals the count of
connections from `c` to `v`. -/
theorem count_targets (edges : List WorkflowEdge) (c v : Option String) :
    (((edges.filter (fun e => decide (e.source = c))).map (fun e => e.target)).count v) =
      edges.countP (fun e => decide (e.target = v) && decide (e.source = c)) := by
  induction edges with
  | nil => rfl
  | cons e es ih =>
    simp only [List.countP_cons, List.filter_cons]
    by_cases h3 : e.source = c
    · by_cases h1 : e.target = v
      · simp [h3, h1, List.count_cons, ih]
      · simp [h3, h1, List.count_cons, ih]
    · simp [h3, ih]

/-- The successor list of `c` has one entry per connection out of `c`. -/
theorem length_targets (edges : List WorkflowEdge) (c : Option String) :
    ((edges.filter (fun e => decide (e.source = c))).map (fun e => e.target)).length =
      edges.countP (fun e => decide (e.source = c)) := by
  rw [List.length_map, List.countP_eq_length_filter]

/-- Membership in the successor list of `c`. -/
theorem mem_targets (edges : List WorkflowEdge) (c v : Option String) :
    v ∈ (edges.filter (fun e => decide (e.source = c))).map (fun e => e.target) ↔
      ∃ e ∈ edges, e.source = c ∧ e.target = v := by
  simp only [List.mem_map, List.mem_filter, decide_eq_true_eq]
  constructor
  · rintro ⟨e, ⟨he, hs⟩, ht⟩
    exact ⟨e, he, hs, ht⟩
  · rintro ⟨e, he, hs, ht⟩
    exact ⟨e, ⟨he, hs⟩, ht⟩

/-- Lookup in the degree map of the node-initialization fold. -/
theorem initFold_deg (ns : List WorkflowNode) :
    ∀ (p : JsMap (Option String) Int × JsMap (Option String) (List (Option String)))
      (v : Option String),
    ((ns.foldl
      (fun (p : JsMap (Option String) Int × JsMap (Option String) (List (Option String))) node =>
        (p.1.set node.id 0, p.2.set node.id [])) p).1).get v =
      if v ∈ ns.map (fun n => n.id) then some 0 else p.1.get v := by
  induction ns with
  | nil => intro p v; simp
  | cons n ns ih =>
    intro p v
    simp only [List.foldl_cons, List.map_cons, List.mem_cons]
    rw [ih]
    by_cases hv : v ∈ ns.map (fun n => n.id)
    · simp [hv]
    · by_cases hvn : v = n.id
      · simp [hv, hvn, JsMap.get_set]
      · simp [hv, hvn, JsMap.get_set]

/-- Lookup in the adjacency map of the node-initialization fold. -/
theorem initFold_adj (ns : List WorkflowNode) :
    ∀ (p : JsMap (Option String) Int × JsMap (Option String) (List (Option String)))
      (v : Option String),
    ((ns.foldl
      (fun (p : JsMap (Option String) Int × JsMap (Option String) (List (Option String))) node =>
        (p.1.set node.id 0, p.2.set node.id [])) p).2).get v =
      if v ∈ ns.map (fun n => n.id) then some [] else p.2.get v := by
  induction ns with
  | nil => intro p v; simp
  | cons n ns ih =>
    intro p v
    simp only [List.foldl_cons, List.map_cons, List.mem_cons]
    rw [ih]
    by_cases hv : v ∈ ns.map (fun n => n.id)
    · simp [hv]
    · by_cases hvn : v = n.id
      · simp [hv, hvn, JsMap.get_set]
      · simp [hv, hvn, JsMap.get_set]

/-- Keys of the degree map of the node-initialization fold. -/
theorem initFold_deg_keys (ns : List WorkflowNode) :
    ∀ (p : JsMap (Option String) Int × JsMap (Option String) (List (Option String))),
    (ns.map (fun n => n.id)).Nodup →
    (∀ v ∈ ns.map (fun n => n.id), v ∉ p.1.keys) →
    ((ns.foldl
      (fun (p : JsMap (Option String) Int × JsMap (Option String) (List (Option String))) node =>
        (p.1.set node.id 0, p.2.set node.id [])) p).1).keys =
      p.1.keys ++ ns.map (fun n => n.id) := by
  induction ns with
  | nil => intro p _ _; simp
  | cons n ns ih =>
    intro p hnd hfresh
    simp only [List.foldl_cons, List.map_cons]
    rw [ih]
    · have hkn : n.id ∉ p.1.keys := hfresh n.id (by simp)
      rw [JsMap.keys_set, if_neg hkn]
      simp
    · exact (List.nodup_cons.mp hnd).2
    · intro v hv
      rw [JsMap.keys_set, if_neg (hfresh n.id (by simp))]
      intro hmem
      rcases List.mem_append.mp hmem with hk | hk
      · exact hfresh v (by simp [hv]) hk
      · have hvn : v = n.id := by simpa using hk
        have := (List.nodup_cons.mp hnd).1
        rw [hvn] at hv
        exact this hv

/-- Lookup in the adjacency map of the edge fold of `kahnInit`. -/
theorem edgeFold_adj (es : List WorkflowEdge) :
    ∀ (p : JsMap (Option String) Int × JsMap (Option String) (List (Option String)))
      (k : Option String),
    (((es.foldl (fun p edge =>
      let neighbors := (p.2.get edge.source).getD []
      let adj := p.2.set edge.source (neighbors ++ [edge.target])
      let deg := p.1.set edge.target ((p.1.get edge.target).getD 0 + 1)
      (deg, adj)) p).2).get k).getD [] =
      ((p.2.get k).getD []) ++ (es.filter (fun e => decide (e.source = k))).map (fun e => e.target) := by
  induction es with
  | nil => intro p k; simp
  | cons e es ih =>
    intro p k
    simp only [List.foldl_cons, List.filter_cons]
    rw [ih]
    by_cases hk : e.source = k
    · subst hk
      simp [JsMap.get_set]
    · have : (p.2.set e.source ((p.2.get e.source).getD [] ++ [e.target])).get k = p.2.get k :=
        JsMap.get_set_ne _ _ _ _ (fun h => hk h.symm)
      simp only [this, hk]
      simp [hk]

/-- Lookup in the degree map of the edge fold of `kahnInit`, keyed lookup
present. -/
theorem edgeFold_deg_some (es : List WorkflowEdge) :
    ∀ (p : JsMap (Option String) Int × JsMap (Option String) (List (Option String)))
      (v : Option String) (d : Int),
    p.1.get v = some d →
    ((es.foldl (fun p edge =>
      let neighbors := (p.2.get edge.source).getD []
      let adj := p.2.set edge.source (neighbors ++ [edge.target])
      let deg := p.1.set edge.target ((p.1.get edge.target).getD 0 + 1)
      (deg, adj)) p).1).get v =
      some (d + (es.countP (fun e => decide (e.target = v)) : Int)) := by
  induction es with
  | nil => intro p v d hp; simpa using hp
  | cons e es ih =>
    intro p v d hp
    simp only [List.foldl_cons, List.countP_cons]
    by_cases hv : e.target = v
    · subst hv
      have hstep : (p.1.set e.target ((p.1.get e.target).getD 0 + 1)).get e.target =
          some (d + 1) := by
        rw [JsMap.get_set_self, hp]
        simp
      rw [ih _ e.target (d + 1) hstep]
      simp
      omega
    · have hstep : (p.1.set e.target ((p.1.get e.target).getD 0 + 1)).get v = some d := by
        rw [JsMap.get_set_ne _ _ _ _ (fun h => hv h.symm)]
        exact hp
      rw [ih _ v d hstep]
      simp [hv]

/-- The degree map of the edge fold is untouched at keys never targeted. -/
theorem edgeFold_deg_none (es : List WorkflowEdge) :
    ∀ (p : JsMap (Option String) Int × JsMap (Option String) (List (Option String)))
      (v : Option String),
    es.countP (fun e => decide (e.target = v)) = 0 →
    ((es.foldl (fun p edge =>
      let neighbors := (p.2.get edge.source).getD []
      let adj := p.2.set edge.source (neighbors ++ [edge.target])
      let deg := p.1.set edge.target ((p.1.get edge.target).getD 0 + 1)
      (deg, adj)) p).1).get v = p.1.get v := by
  induction es with
  | nil => intro p v _; rfl
  | cons e es ih =>
    intro p v hcnt
    simp only [List.countP_cons] at hcnt
    have hne : e.target ≠ v := by
      intro h
      simp [h] at hcnt
    simp only [List.foldl_cons]
    rw [ih _ v (by omega)]
    exact JsMap.get_set_ne _ _ _ _ (fun h => hne h.symm)

/-- The degree map keys are stable when every edge target is already keyed. -/
theorem edgeFold_deg_keys (es : List WorkflowEdge) :
    ∀ (p : JsMap (Option String) Int × JsMap (Option String) (List (Option String))),
    (∀ e ∈ es, e.target ∈ p.1.keys) →
    ((es.foldl (fun p edge =>
      let neighbors := (p.2.get edge.source).getD []
      let adj := p.2.set edge.source (neighbors ++ [edge.target])
      let deg := p.1.set edge.target ((p.1.get edge.target).getD 0 + 1)
      (deg, adj)) p).1).keys = p.1.keys := by
  induction es with
  | nil => intro p _; rfl
  | cons e es ih =>
    intro p hmem
    simp only [List.foldl_cons]
    rw [ih]
    · exact (by rw [JsMap.keys_set, if_pos (hmem e (by simp))] :
        (p.1.set e.target ((p.1.get e.target).getD 0 + 1)).keys = p.1.keys)
    · intro e' he'
      rw [JsMap.keys_set, if_pos (hmem e (by simp))]
      exact hmem e' (by simp [he'])

/-- Adjacency produced by `kahnInit`: the successor list of `k` is the target
of each connection out of `k`, in connection order. -/
theorem kahnInit_adj (nodes : List WorkflowNode) (edges : List WorkflowEdge)
    (k : Option String) :
    (((kahnInit nodes edges).2).get k).getD [] =
      (edges.filter (fun e => decide (e.source = k))).map (fun e => e.target) := by
  simp only [kahnInit]
  rw [edgeFold_adj, initFold_adj]
  by_cases hk : k ∈ nodes.map (fun n => n.id) <;> simp [hk, JsMap.empty, JsMap.get]

/-- Degree produced by `kahnInit` at a step id: its in-degree. -/
theorem kahnInit_deg_mem (nodes : List WorkflowNode) (edges : List WorkflowEdge)
    (v : Option String) (hv : v ∈ nodes.map (fun n => n.id)) :
    ((kahnInit nodes edges).1).get v = some ((inDegCount edges v : Int)) := by
  simp only [kahnInit]
  rw [edgeFold_deg_some _ _ v 0 (by rw [initFold_deg]; simp [hv])]
  simp [inDegCount]

/-- Degree produced by `kahnInit` outside the step ids, when every connection
targets a step id: absent. -/
theorem kahnInit_deg_not_mem (nodes : List WorkflowNode) (edges : List WorkflowEdge)
    (v : Option String) (hv : v ∉ nodes.map (fun n => n.id))
    (h2 : ∀ e ∈ edges, e.target ∈ nodes.map (fun n => n.id)) :
    ((kahnInit nodes edges).1).get v = none := by
  have hcnt : edges.countP (fun e => decide (e.target = v)) = 0 := by
    rw [List.countP_eq_zero]
    intro e he
    simp only [decide_eq_true_eq]
    intro hev
    exact hv (hev ▸ h2 e he)
  simp only [kahnInit]
  rw [edgeFold_deg_none _ _ _ hcnt, initFold_deg]
  simp [hv, JsMap.empty, JsMap.get]

/-- Keys of the degree map of `kahnInit`: exactly the step ids, in insertion
order, when ids are distinct and every connection targets a step id. -/
theorem kahnInit_deg_keys (nodes : List WorkflowNode) (edges : List WorkflowEdge)
    (h1 : (nodes.map (fun n => n.id)).Nodup)
    (h2 : ∀ e ∈ edges, e.target ∈ nodes.map (fun n => n.id)) :
    ((kahnInit nodes edges).1).keys = nodes.map (fun n => n.id) := by
  simp only [kahnInit]
  rw [edgeFold_deg_keys, initFold_deg_keys _ _ h1]
  · simp [JsMap.empty]
  · intro v _
    simp [JsMap.empty]
  · intro e he
    rw [initFold_deg_keys _ _ h1]
    · simpa [JsMap.empty] using h2 e he
    · intro v _
      simp [JsMap.empty]

/-- Degrees after the neighbor fold of the Kahn loop body: each occurrence of
a neighbor decrements its stored degree once. -/
theorem kahnStepFold_deg (ns : List (Option String)) :
    ∀ (pq : JsMap (Option String) Int × List (Option String)) (v : Option String),
    ((ns.foldl (fun p neighbor =>
      let newDegree := (p.1.get neighbor).getD 0 - 1
      (p.1.set neighbor newDegree, if newDegree = 0 then p.2 ++ [neighbor] else p.2)) pq).1).get v =
    if v ∈ ns then some (((pq.1.get v).getD 0) - (ns.count v : Int)) else pq.1.get v := by
  induction ns with
  | nil => intro pq v; simp
  | cons n ns ih =>
    intro pq v
    simp only [List.foldl_cons]
    rw [ih]
    by_cases hvn : v = n
    · subst hvn
      rw [JsMap.get_set_self]
      have hcnt : ((v :: ns).count v : Int) = (ns.count v : Int) + 1 := by
        rw [List.count_cons_self]
        push_cast
        ring
      by_cases hv : v ∈ ns
      · rw [if_pos hv, if_pos (List.mem_cons_self v ns)]
        simp only [Option.getD_some]
        rw [hcnt]
        all_goals exact congrArg some (by push_cast; ring)
      · rw [if_neg hv, if_pos (List.mem_cons_self v ns)]
        rw [hcnt, List.count_eq_zero.mpr hv]
        all_goals exact congrArg some (by push_cast; ring)
    · rw [JsMap.get_set_ne _ _ _ _ hvn]
      have hcc : (n :: ns).count v = ns.count v := by
        simp [List.count_cons, Ne.symm hvn]
      by_cases hv : v ∈ ns
      · rw [if_pos hv, if_pos (List.mem_cons_of_mem n hv), hcc]
      · rw [if_neg hv, if_neg (by simp [hvn, hv])]

/-- Queue growth of the neighbor fold of the Kahn loop body: the entries
appended are exactly the neighbors whose stored degree passes through 0
during the decrements, each appended once. -/
theorem kahnStepFold_queue (ns : List (Option String)) :
    ∀ (pq : JsMap (Option String) Int × List (Option String)),
    ∃ pushed : List (Option String),
      ((ns.foldl (fun p neighbor =>
        let newDegree := (p.1.get neighbor).getD 0 - 1
        (p.1.set neighbor newDegree, if newDegree = 0 then p.2 ++ [neighbor] else p.2)) pq).2) =
        pq.2 ++ pushed ∧
      pushed.Nodup ∧
      (∀ v, v ∈ pushed ↔ v ∈ ns ∧ 1 ≤ (pq.1.get v).getD 0 ∧
        (pq.1.get v).getD 0 ≤ (ns.count v : Int)) := by
  induction ns with
  | nil =>
    intro pq
    exact ⟨[], by simp, List.nodup_nil, by simp⟩
  | cons n ns ih =>
    intro pq
    simp only [List.foldl_cons]
    obtain ⟨ps, hps, hnd, hchar⟩ :=
      ih (pq.1.set n ((pq.1.get n).getD 0 - 1),
          if ((pq.1.get n).getD 0 - 1) = 0 then pq.2 ++ [n] else pq.2)
    by_cases hd : ((pq.1.get n).getD 0 - 1) = 0
    · refine ⟨n :: ps, ?_, ?_, ?_⟩
      · rw [hps]
        simp [hd]
      · refine List.nodup_cons.mpr ⟨?_, hnd⟩
        intro hmem
        have := (hchar n).mp hmem
        rw [JsMap.get_set_self, Option.getD_some] at this
        omega
      · intro v
        by_cases hvn : v = n
        · subst hvn
          simp only [List.mem_cons, true_or, true_iff]
          refine ⟨trivial, by omega, ?_⟩
          rw [List.count_cons_self]
          push_cast
          omega
        · rw [List.mem_cons, or_iff_right hvn]
          rw [hchar v]
          rw [JsMap.get_set_ne _ _ _ _ hvn, List.mem_cons, or_iff_right hvn]
          have hcc : ((n :: ns).count v : Int) = (ns.count v : Int) := by
            simp [List.count_cons, Ne.symm hvn]
          rw [hcc]
    · refine ⟨ps, ?_, hnd, ?_⟩
      · rw [hps]
        simp [hd]
      · intro v
        rw [hchar v]
        by_cases hvn : v = n
        · subst hvn
          rw [JsMap.get_set_self, Option.getD_some]
          have hcs : ((v :: ns).count v : Int) = (ns.count v : Int) + 1 := by
            rw [List.count_cons_self]
            push_cast
            omega
          constructor
          · rintro ⟨hm, hge, hle⟩
            refine ⟨List.mem_cons_self v ns, by omega, by rw [hcs]; omega⟩
          · rintro ⟨hm, hge, hle⟩
            rw [hcs] at hle
            have hge2 : 2 ≤ (pq.1.get v).getD 0 := by omega
            have hcpos : 1 ≤ (ns.count v : Int) := by omega
            have hmem : v ∈ ns := by
              rw [← List.count_pos_iff]
              omega
            exact ⟨hmem, by omega, by omega⟩
        · rw [JsMap.get_set_ne _ _ _ _ hvn, List.mem_cons, or_iff_right hvn]
          have hcc : ((n :: ns).count v : Int) = (ns.count v : Int) := by
            simp [List.count_cons, Ne.symm hvn]
          rw [hcc]

theorem kahnStep_deg (deg : JsMap (Option String) Int) (q ns : List (Option String)) :
    ∀ v, (kahnStep deg q ns).1.get v =
      if v ∈ ns then some (((deg.get v).getD 0) - (ns.count v : Int)) else deg.get v :=
  fun v => kahnStepFold_deg ns (deg, q) v

theorem kahnStep_queue (deg : JsMap (Option String) Int) (q ns : List (Option String)) :
    ∃ pushed : List (Option String),
      (kahnStep deg q ns).2 = q ++ pushed ∧ pushed.Nodup ∧
      (∀ v, v ∈ pushed ↔ v ∈ ns ∧ 1 ≤ (deg.get v).getD 0 ∧
        (deg.get v).getD 0 ≤ (ns.count v : Int)) :=
  kahnStepFold_queue ns (deg, q)

theorem indexOf_cons_beq {α : Type} [BEq α] (a b : α) (l : List α) :
    (b :: l).indexOf a = bif b == a then 0 else (l.indexOf a) + 1 := by
  simp [List.indexOf, List.findIdx_cons]

theorem indexOf_append_of_mem_beq {α : Type} [BEq α] [LawfulBEq α] {a : α}
    {l₁ : List α} (l₂ : List α) (h : a ∈ l₁) :
    (l₁ ++ l₂).indexOf a = l₁.indexOf a := by
  induction l₁ with
  | nil => cases h
  | cons b l ih =>
    by_cases hba : b = a
    · simp [indexOf_cons_beq, hba]
    · have hfalse : (b == a) = false := beq_eq_false_iff_ne.mpr hba
      rcases List.mem_cons.mp h with hh | hh
      · exact absurd hh.symm hba
      · simp [indexOf_cons_beq, hfalse, ih hh]

theorem indexOf_append_self_beq {α : Type} [BEq α] [LawfulBEq α] {c : α}
    {l₁ : List α} (h : c ∉ l₁) :
    (l₁ ++ [c]).indexOf c = l₁.length := by
  induction l₁ with
  | nil => simp [indexOf_cons_beq]
  | cons b l ih =>
    have hbc : b ≠ c := fun hh => h (hh ▸ List.mem_cons_self b l)
    have hfalse : (b == c) = false := beq_eq_false_iff_ne.mpr hbc
    have hnotin : c ∉ l := fun hh => h (List.mem_cons_of_mem _ hh)
    simp [indexOf_cons_beq, hfalse, ih hnotin]

theorem indexOf_lt_length_beq {α : Type} [BEq α] [LawfulBEq α] {a : α}
    {l : List α} (h : a ∈ l) :
    l.indexOf a < l.length := by
  induction l with
  | nil => cases h
  | cons b l ih =>
    by_cases hba : b = a
    · simp [indexOf_cons_beq, hba]
    · have hfalse : (b == a) = false := beq_eq_false_iff_ne.mpr hba
      rcases List.mem_cons.mp h with hh | hh
      · exact absurd hh.symm hba
      · simp only [indexOf_cons_beq, hfalse, cond_false, List.length_cons]
        exact Nat.succ_lt_succ (ih hh)

theorem kahnLoop_nil (adj : JsMap (Option String) (List (Option String))) (fuel : Nat)
    (deg : JsMap (Option String) Int) (res : List (Option String)) :
    kahnLoop adj fuel [] deg res = res := by
  cases fuel <;> rfl

theorem kahnLoop_cons (adj : JsMap (Option String) (List (Option String))) (fuel : Nat)
    (c : Option String) (rest : List (Option String)) (deg : JsMap (Option String) Int)
    (res : List (Option String)) :
    kahnLoop adj (fuel + 1) (c :: rest) deg res =
      kahnLoop adj fuel (kahnStep deg rest ((adj.get c).getD [])).2
        (kahnStep deg rest ((adj.get c).getD [])).1 (res ++ [c]) := rfl

/-- Conclusions of the Kahn loop at exit, read off the invariants. -/
theorem kahnExit (nodes : List WorkflowNode) (edges : List WorkflowEdge)
    (res : List (Option String))
    (hI1 : res.Nodup)
    (hI2 : ∀ v ∈ res, v ∈ nodes.map (fun n => n.id))
    (hI4 : ∀ v ∈ nodes.map (fun n => n.id),
      (v ∈ res ↔ (∀ e ∈ edges, e.target = v → e.source ∈ res)))
    (hI5 : ∀ e ∈ edges, e.target ∈ res →
      e.source ∈ res ∧ res.indexOf e.source < res.indexOf e.target) :
    res.Nodup ∧
    (∀ v ∈ res, v ∈ nodes.map (fun n => n.id)) ∧
    (∀ e ∈ edges, e.target ∈ res →
      e.source ∈ res ∧ res.indexOf e.source < res.indexOf e.target) ∧
    (∀ v ∈ nodes.map (fun n => n.id), v ∉ res →
      ∃ e ∈ edges, e.target = v ∧ e.source ∉ res) := by
  refine ⟨hI1, hI2, hI5, ?_⟩
  intro v hv hnot
  by_contra hcon
  push_neg at hcon
  exact hnot ((hI4 v hv).mpr (fun e he ht => hcon e he ht))

/-- Invariant-carrying induction over the Kahn while loop.  The measure
(queue length plus the number of connections whose source is not yet
emitted) strictly decreases each iteration, so the fuel never runs out. -/
theorem kahnLoop_spec (nodes : List WorkflowNode) (edges : List WorkflowEdge)
    (h2 : ∀ e ∈ edges, e.source ∈ nodes.map (fun n => n.id) ∧
      e.target ∈ nodes.map (fun n => n.id)) :
    ∀ (fuel : Nat) (queue : List (Option String)) (deg : JsMap (Option String) Int)
      (res : List (Option String)),
    (res ++ queue).Nodup →
    (∀ v ∈ res ++ queue, v ∈ nodes.map (fun n => n.id)) →
    (∀ v ∈ nodes.map (fun n => n.id), deg.get v = some ((remDeg edges res v : Int))) →
    (∀ v ∈ nodes.map (fun n => n.id),
      ((v ∈ res ∨ v ∈ queue) ↔ (∀ e ∈ edges, e.target = v → e.source ∈ res))) →
    (∀ e ∈ edges, e.target ∈ res →
      e.source ∈ res ∧ res.indexOf e.source < res.indexOf e.target) →
    queue.length + edges.countP (fun e => !(decide (e.source ∈ res))) ≤ fuel →
    (kahnLoop (kahnInit nodes edges).2 fuel queue deg res).Nodup ∧
    (∀ v ∈ kahnLoop (kahnInit nodes edges).2 fuel queue deg res,
      v ∈ nodes.map (fun n => n.id)) ∧
    (∀ e ∈ edges, e.target ∈ kahnLoop (kahnInit nodes edges).2 fuel queue deg res →
      e.source ∈ kahnLoop (kahnInit nodes edges).2 fuel queue deg res ∧
      (kahnLoop (kahnInit nodes edges).2 fuel queue deg res).indexOf e.source <
        (kahnLoop (kahnInit nodes edges).2 fuel queue deg res).indexOf e.target) ∧
    (∀ v ∈ nodes.map (fun n => n.id),
      v ∉ kahnLoop (kahnInit nodes edges).2 fuel queue deg res →
      ∃ e ∈ edges, e.target = v ∧
        e.source ∉ kahnLoop (kahnInit nodes edges).2 fuel queue deg res) := by
  intro fuel
  induction fuel with
  | zero =>
    intro queue deg res hI1 hI2 hI3 hI4 hI5 hmu
    cases queue with
    | nil =>
      rw [kahnLoop_nil]
      exact kahnExit nodes edges res (by simpa using hI1) (by simpa using hI2)
        (fun v hv => by simpa using hI4 v hv) hI5
    | cons c rest =>
      exfalso
      simp only [List.length_cons] at hmu
      omega
  | succ fuel ih =>
    intro queue deg res hI1 hI2 hI3 hI4 hI5 hmu
    cases queue with
    | nil =>
      rw [kahnLoop_nil]
      exact kahnExit nodes edges res (by simpa using hI1) (by simpa using hI2)
        (fun v hv => by simpa using hI4 v hv) hI5
    | cons c rest =>
      rw [kahnLoop_cons, kahnInit_adj nodes edges c]
      set nbrs := (edges.filter (fun e => decide (e.source = c))).map (fun e => e.target)
        with hnbrs
      have hcids : c ∈ nodes.map (fun n => n.id) := hI2 c (by simp)
      obtain ⟨hndres, hndq, hdisjq⟩ := List.nodup_append.mp hI1
      have hcres : c ∉ res := fun h => hdisjq h (by simp)
      have hcrest : c ∉ rest := (List.nodup_cons.mp hndq).1
      have hndrest : rest.Nodup := (List.nodup_cons.mp hndq).2
      have hpreds : ∀ e ∈ edges, e.target = c → e.source ∈ res :=
        (hI4 c hcids).mp (Or.inr (by simp))
      obtain ⟨pushed, hq, hpnd, hpchar⟩ := kahnStep_queue deg rest nbrs
      have hdeg := kahnStep_deg deg rest nbrs
      have hnbrs_ids : ∀ v ∈ nbrs, v ∈ nodes.map (fun n => n.id) := by
        intro v hv
        rw [hnbrs, mem_targets] at hv
        obtain ⟨e, he, _, ht⟩ := hv
        exact ht ▸ (h2 e he).2
      have hdegv : ∀ v ∈ nodes.map (fun n => n.id),
          (deg.get v).getD 0 = ((remDeg edges res v : Int)) := by
        intro v hv
        rw [hI3 v hv]
        rfl
      have hcnt_eq : ∀ v : Option String, (nbrs.count v : Int) =
          (edges.countP (fun e => decide (e.target = v) && decide (e.source = c)) : Int) := by
        intro v
        rw [hnbrs]
        exact_mod_cast count_targets edges c v
      have hsplit : ∀ v, remDeg edges res v = remDeg edges (res ++ [c]) v +
          edges.countP (fun e => decide (e.target = v) && decide (e.source = c)) :=
        fun v => remDeg_split edges res c v hcres
      have hpchar2 : ∀ v, v ∈ pushed ↔
          (v ∈ nbrs ∧ remDeg edges (res ++ [c]) v = 0 ∧ 1 ≤ remDeg edges res v) := by
        intro v
        rw [hpchar v]
        by_cases hv : v ∈ nbrs
        · simp only [hv, true_and]
          rw [hdegv v (hnbrs_ids v hv), hcnt_eq v]
          have hs := hsplit v
          constructor
          · rintro ⟨hge, hle⟩
            constructor
            · omega
            · omega
          · rintro ⟨h0, h1⟩
            constructor
            · omega
            · omega
        · simp [hv]
      have hpush_not : ∀ v ∈ pushed, v ∉ res ∧ v ≠ c ∧ v ∉ rest := by
        intro v hv
        obtain ⟨hvn, h0, h1⟩ := (hpchar2 v).mp hv
        have hvids := hnbrs_ids v hvn
        have hex : ∃ e ∈ edges, e.target = v ∧ e.source ∉ res := by
          rw [remDeg] at h1
          obtain ⟨e, he, hp⟩ := List.countP_pos.mp
            (show 0 < edges.countP
              (fun e => decide (e.target = v) && !(decide (e.source ∈ res))) by omega)
          simp only [Bool.and_eq_true, decide_eq_true_eq, Bool.not_eq_true',
            decide_eq_false_iff_not] at hp
          exact ⟨e, he, hp.1, hp.2⟩
        have hnotin : ¬(v ∈ res ∨ v ∈ c :: rest) := by
          intro hor
          obtain ⟨e, he, ht, hs⟩ := hex
          exact hs ((hI4 v hvids).mp hor e he ht)
        exact ⟨fun h => hnotin (Or.inl h),
          fun h => hnotin (Or.inr (by simp [h])),
          fun h => hnotin (Or.inr (by simp [h]))⟩
      rw [hq]
      refine ih (rest ++ pushed) (kahnStep deg rest nbrs).1 (res ++ [c]) ?_ ?_ ?_ ?_ ?_ ?_
      · have hperm : (res ++ [c]) ++ (rest ++ pushed) = (res ++ c :: rest) ++ pushed := by
          simp
        rw [hperm]
        rw [List.nodup_append]
        refine ⟨hI1, hpnd, ?_⟩
        intro a ha hap
        obtain ⟨h1, h2', h3⟩ := hpush_not a hap
        rcases List.mem_append.mp ha with h | h
        · exact h1 h
        · rcases List.mem_cons.mp h with h | h
          · exact h2' h
          · exact h3 h
      · intro v hv
        rcases List.mem_append.mp hv with h | h
        · rcases List.mem_append.mp h with h' | h'
          · exact hI2 v (List.mem_append_left _ h')
          · have : v = c := by simpa using h'
            exact this ▸ hcids
        · rcases List.mem_append.mp h with h' | h'
          · exact hI2 v (List.mem_append_right _ (List.mem_cons_of_mem _ h'))
          · exact hnbrs_ids v (((hpchar2 v).mp h').1)
      · intro v hv
        rw [hdeg v]
        by_cases hvn : v ∈ nbrs
        · rw [if_pos hvn, hdegv v hv, hcnt_eq v]
          have hs := hsplit v
          exact congrArg some (by push_cast; omega)
        · rw [if_neg hvn, hI3 v hv]
          have hc0 : edges.countP (fun e => decide (e.target = v) && decide (e.source = c)) = 0 := by
            have hcv : nbrs.count v = 0 := List.count_eq_zero.mpr hvn
            have := hcnt_eq v
            omega
          have hs := hsplit v
          exact congrArg some (by push_cast; omega)
      · intro v hv
        constructor
        · intro hor
          have hmemsplit : v ∈ res ∨ v = c ∨ v ∈ rest ∨ v ∈ pushed := by
            rcases hor with h | h
            · rcases List.mem_append.mp h with h' | h'
              · exact Or.inl h'
              · exact Or.inr (Or.inl (by simpa using h'))
            · rcases List.mem_append.mp h with h' | h'
              · exact Or.inr (Or.inr (Or.inl h'))
              · exact Or.inr (Or.inr (Or.inr h'))
          rcases hmemsplit with h | h | h | h
          · intro e he ht
            exact List.mem_append_left _ ((hI4 v hv).mp (Or.inl h) e he ht)
          · subst h
            intro e he ht
            exact List.mem_append_left _ (hpreds e he ht)
          · intro e he ht
            exact List.mem_append_left _
              ((hI4 v hv).mp (Or.inr (List.mem_cons_of_mem _ h)) e he ht)
          · obtain ⟨_, h0, _⟩ := (hpchar2 v).mp h
            intro e he ht
            by_contra hs
            have hpos : 0 < edges.countP
                (fun e => decide (e.target = v) && !(decide (e.source ∈ res ++ [c]))) :=
              List.countP_pos.mpr ⟨e, he, by simp [ht, hs]⟩
            rw [remDeg] at h0
            omega
        · intro hall
          by_cases hallres : ∀ e ∈ edges, e.target = v → e.source ∈ res
          · rcases (hI4 v hv).mpr hallres with h | h
            · exact Or.inl (List.mem_append_left _ h)
            · rcases List.mem_cons.mp h with he | hm
              · exact Or.inl (List.mem_append_right _ (by simp [he]))
              · exact Or.inr (List.mem_append_left _ hm)
          · push_neg at hallres
            obtain ⟨e0, he0, ht0, hs0⟩ := hallres
            have hsc : e0.source = c := by
              rcases List.mem_append.mp (hall e0 he0 ht0) with h | h
              · exact absurd h hs0
              · simpa using h
            have hvnbrs : v ∈ nbrs := by
              rw [hnbrs, mem_targets]
              exact ⟨e0, he0, hsc, ht0⟩
            have h0 : remDeg edges (res ++ [c]) v = 0 := by
              rw [remDeg, List.countP_eq_zero]
              intro e he
              simp only [Bool.and_eq_true, decide_eq_true_eq, Bool.not_eq_true',
                decide_eq_false_iff_not, not_and]
              intro ht
              exact fun hmem => hmem (hall e he ht)
            have h1 : 1 ≤ remDeg edges res v := by
              rw [remDeg]
              have hp0 : 0 < edges.countP
                  (fun e => decide (e.target = v) && !(decide (e.source ∈ res))) :=
                List.countP_pos.mpr ⟨e0, he0, by
                  simp only [Bool.and_eq_true, decide_eq_true_eq, Bool.not_eq_true',
                    decide_eq_false_iff_not]
                  exact ⟨ht0, hs0⟩⟩
              omega
            exact Or.inr (List.mem_append_right _ ((hpchar2 v).mpr ⟨hvnbrs, h0, h1⟩))
      · intro e he ht
        rcases List.mem_append.mp ht with h | h
        · obtain ⟨hsrc, hidx⟩ := hI5 e he h
          refine ⟨List.mem_append_left _ hsrc, ?_⟩
          rw [indexOf_append_of_mem_beq _ hsrc, indexOf_append_of_mem_beq _ h]
          exact hidx
        · have htc : e.target = c := by simpa using h
          have hsrc : e.source ∈ res := hpreds e he htc
          refine ⟨List.mem_append_left _ hsrc, ?_⟩
          rw [indexOf_append_of_mem_beq _ hsrc, htc, indexOf_append_self_beq hcres]
          exact indexOf_lt_length_beq hsrc
      · have hlen_push : pushed.length ≤ edges.countP (fun e => decide (e.source = c)) := by
          have hsub : pushed ⊆ nbrs := fun v hv => ((hpchar v).mp hv).1
          have := (List.subperm_of_subset hpnd hsub).length_le
          rw [hnbrs, length_targets] at this
          exact this
        have hss := src_split edges res c hcres
        simp only [List.length_append, List.length_cons] at hmu ⊢
        omega

/-- With no step emitted, the remaining in-degree is the in-degree. -/
theorem remDeg_nil (edges : List WorkflowEdge) (v : Option String) :
    remDeg edges [] v = inDegCount edges v := by
  unfold remDeg inDegCount
  apply List.countP_congr
  intro e _
  simp

/-- The ready queue is seeded with the steps of in-degree 0, in step insertion
order. -/
theorem kahnSeed_eq (nodes : List WorkflowNode) (edges : List WorkflowEdge)
    (h1 : (nodes.map (fun n => n.id)).Nodup)
    (h2 : ∀ e ∈ edges, e.source ∈ nodes.map (fun n => n.id) ∧
      e.target ∈ nodes.map (fun n => n.id)) :
    ((kahnInit nodes edges).1.keys).filter
        (fun k => (kahnInit nodes edges).1.get k = some 0) =
      (nodes.map (fun n => n.id)).filter (fun v => inDegCount edges v = 0) := by
  rw [kahnInit_deg_keys nodes edges h1 (fun e he => (h2 e he).2)]
  apply List.filter_congr
  intro v hv
  rw [kahnInit_deg_mem nodes edges v hv]
  simp [Option.some.injEq]

/-- Structural properties of the scheduler output that hold for every
well-formed graph, cyclic or not: the order is duplicate-free, contains only
step ids, is topologically sorted on the steps it does emit, and every
omitted step has an omitted predecessor. -/
theorem kahn_order_props (nodes : List WorkflowNode) (edges : List WorkflowEdge)
    (h1 : (nodes.map (fun n => n.id)).Nodup)
    (h2 : ∀ e ∈ edges, e.source ∈ nodes.map (fun n => n.id) ∧
      e.target ∈ nodes.map (fun n => n.id)) :
    (validateExecutionOrder nodes edges).Nodup ∧
    (∀ v ∈ validateExecutionOrder nodes edges, v ∈ nodes.map (fun n => n.id)) ∧
    (∀ e ∈ edges, e.target ∈ validateExecutionOrder nodes edges →
      e.source ∈ validateExecutionOrder nodes edges ∧
      (validateExecutionOrder nodes edges).indexOf e.source <
        (validateExecutionOrder nodes edges).indexOf e.target) ∧
    (∀ v ∈ nodes.map (fun n => n.id), v ∉ validateExecutionOrder nodes edges →
      ∃ e ∈ edges, e.target = v ∧ e.source ∉ validateExecutionOrder nodes edges) := by
  have hseed := kahnSeed_eq nodes edges h1 h2
  have hkeys := kahnInit_deg_keys nodes edges h1 (fun e he => (h2 e he).2)
  simp only [validateExecutionOrder]
  rw [hseed]
  apply kahnLoop_spec nodes edges h2
  · simpa using List.Nodup.filter _ h1
  · intro v hv
    simp only [List.nil_append] at hv
    exact List.mem_of_mem_filter hv
  · intro v hv
    rw [kahnInit_deg_mem nodes edges v hv, remDeg_nil]
  · intro v hv
    simp only [List.not_mem_nil, false_or, List.mem_filter, hv, true_and]
    constructor
    · intro hmem e he ht
      exfalso
      have h0 : inDegCount edges v = 0 := by simpa using hmem
      rw [inDegCount, List.countP_eq_zero] at h0
      exact h0 e he (by simp [ht])
    · intro hall
      simp only [decide_eq_true_eq]
      rw [inDegCount, List.countP_eq_zero]
      intro e he
      simp only [decide_eq_true_eq]
      intro ht
      simpa using hall e he ht
  · intro e _ ht
    exact absurd ht (List.not_mem_nil _)
  · have hlen : ((nodes.map (fun n => n.id)).filter
        (fun v => inDegCount edges v = 0)).length ≤
        ((kahnInit nodes edges).1.keys).length := by
      rw [hkeys]
      exact List.length_filter_le _ _
    have hcle : edges.countP (fun e => !(decide (e.source ∈ ([] : List (Option String))))) ≤
        edges.length := List.countP_le_length _
    omega

/-- C1.  For a well-formed acyclic graph the scheduler emits a permutation of
all step ids in which every connection goes from an earlier to a later
position, and the ready queue is seeded with exactly the steps of in-degree
0 in step insertion order. -/
theorem scheduler_topological_sort (nodes : List WorkflowNode) (edges : List WorkflowEdge)
    (h1 : (nodes.map (fun n => n.id)).Nodup)
    (h2 : ∀ e ∈ edges, e.source ∈ nodes.map (fun n => n.id) ∧
      e.target ∈ nodes.map (fun n => n.id))
    (h3 : ∀ v, ¬ Relation.TransGen (edgeRel edges) v v) :
    (validateExecutionOrder nodes edges).Perm (nodes.map (fun n => n.id)) ∧
    (∀ e ∈ edges, (validateExecutionOrder nodes edges).indexOf e.source <
      (validateExecutionOrder nodes edges).indexOf e.target) ∧
    ((kahnInit nodes edges).1.keys).filter
        (fun k => (kahnInit nodes edges).1.get k = some 0) =
      (nodes.map (fun n => n.id)).filter (fun v => inDegCount edges v = 0) := by
  obtain ⟨hnd, hsub, htopo, hmiss⟩ := kahn_order_props nodes edges h1 h2
  have hcompl : ∀ v ∈ nodes.map (fun n => n.id), v ∈ validateExecutionOrder nodes edges := by
    by_contra hcon
    push_neg at hcon
    obtain ⟨v0, hv0, hv0not⟩ := hcon
    classical
    set S := ((nodes.map (fun n => n.id)).filter
      (fun v => decide (v ∉ validateExecutionOrder nodes edges))).toFinset with hS
    have hS0 : v0 ∈ S := by
      rw [hS]
      simp only [List.mem_toFinset, List.mem_filter, decide_eq_true_eq]
      exact ⟨hv0, hv0not⟩
    have hpred : ∀ x : Option String, x ∈ S → ∃ y ∈ S, edgeRel edges y x := by
      intro x hx
      rw [hS] at hx
      simp only [List.mem_toFinset, List.mem_filter, decide_eq_true_eq] at hx
      obtain ⟨e, he, ht, hs⟩ := hmiss x hx.1 hx.2
      refine ⟨e.source, ?_, ⟨e, he, rfl, ht⟩⟩
      rw [hS]
      simp only [List.mem_toFinset, List.mem_filter, decide_eq_true_eq]
      exact ⟨(h2 e he).1, hs⟩
    haveI : IsTrans {x // x ∈ S}
        (fun a b => Relation.TransGen (edgeRel edges) a.1 b.1) :=
      ⟨fun _ _ _ hab hbc => Relation.TransGen.trans hab hbc⟩
    haveI : IsIrrefl {x // x ∈ S}
        (fun a b => Relation.TransGen (edgeRel edges) a.1 b.1) :=
      ⟨fun a ha => h3 a.1 ha⟩
    have hwf : WellFounded
        (fun (a b : {x // x ∈ S}) => Relation.TransGen (edgeRel edges) a.1 b.1) :=
      Finite.wellFounded_of_trans_of_irrefl _
    obtain ⟨a, _, hmin⟩ := hwf.has_min Set.univ ⟨⟨v0, hS0⟩, trivial⟩
    obtain ⟨y, hyS, hxy⟩ := hpred a.1 a.2
    exact hmin ⟨y, hyS⟩ trivial (Relation.TransGen.single hxy)
  refine ⟨?_, ?_, kahnSeed_eq nodes edges h1 h2⟩
  · rw [List.perm_ext_iff_of_nodup hnd h1]
    exact fun v => ⟨fun hv => hsub v hv, fun hv => hcompl v hv⟩
  · intro e he
    have hts : e.target ∈ validateExecutionOrder nodes edges := hcompl e.target (h2 e he).2
    exact (htopo e he hts).2

/-- C1 witness: the line A -> B -> C is scheduled as a permutation respecting
both connections, with the seed computed in insertion order. -/
theorem scheduler_topological_sort_witness :
    (validateExecutionOrder [nodeA, nodeB, nodeC] [edgeAB, edgeBC]).Perm
      ([nodeA, nodeB, nodeC].map (fun n => n.id)) ∧
    (∀ e ∈ [edgeAB, edgeBC],
      (validateExecutionOrder [nodeA, nodeB, nodeC] [edgeAB, edgeBC]).indexOf e.source <
      (validateExecutionOrder [nodeA, nodeB, nodeC] [edgeAB, edgeBC]).indexOf e.target) ∧
    ((kahnInit [nodeA, nodeB, nodeC] [edgeAB, edgeBC]).1.keys).filter
        (fun k => (kahnInit [nodeA, nodeB, nodeC] [edgeAB, edgeBC]).1.get k = some 0) =
      ([nodeA, nodeB, nodeC].map (fun n => n.id)).filter
        (fun v => inDegCount [edgeAB, edgeBC] v = 0) := by
  apply scheduler_topological_sort
  · decide
  · decide
  · intro v hv
    have hmono : ∀ a b, edgeRel [edgeAB, edgeBC] a b →
        (fun x : Option String => if x = some "A" then 0 else if x = some "B" then 1 else 2) a <
        (fun x : Option String => if x = some "A" then 0 else if x = some "B" then 1 else 2) b := by
      intro a b hab
      obtain ⟨e, he, hs, ht⟩ := hab
      rcases List.mem_cons.mp he with he1 | he1
      · subst he1
        rw [← hs, ← ht]
        decide
      · have he2 : e = edgeBC := by simpa using he1
        subst he2
        rw [← hs, ← ht]
        decide
    have hlift := Relation.TransGen.lift _ hmono hv
    have hless : ∀ {m n : Nat}, Relation.TransGen LT.lt m n → m < n := by
      intro m n h
      induction h with
      | single h1 => exact h1
      | tail _ h1 ih => exact Nat.lt_trans ih h1
    exact Nat.lt_irrefl _ (hless hlift)

/-- Reduction of `executeWorkflow` when the order is complete and the loop
succeeds. -/
theorem executeWorkflow_ok (caps : Capabilities) (clock : Nat → Int)
    (workflow : Workflow) (inputData : JsValue) (tickE : Nat) (ctxE : ExecutionContext)
    (hlen : ¬ (validateExecutionOrder workflow.config.nodes workflow.config.edges).length ≠
      workflow.config.nodes.length)
    (hrun : runOrder caps clock workflow.config.nodes
      (validateExecutionOrder workflow.config.nodes workflow.config.edges) 1
      { nodes := workflow.config.nodes, edges := workflow.config.edges,
        currentData := jsOr inputData JsValue.null,
        nodeExecutions := JsMap.empty } = ((tickE, ctxE), none)) :
    executeWorkflow caps clock workflow inputData =
      ({ workflow_id := workflow.id, status := "completed", input_data := inputData,
         output_data := none, error_message := none,
         execution_time_ms := some (clock tickE - clock 0) }, ctxE, tickE + 1) := by
  simp only [executeWorkflow, if_neg hlen, hrun]

/-- Reduction of `executeWorkflow` when the order is complete and the loop
fails with a message. -/
theorem executeWorkflow_err (caps : Capabilities) (clock : Nat → Int)
    (workflow : Workflow) (inputData : JsValue) (tickE : Nat) (ctxE : ExecutionContext)
    (msg : String)
    (hlen : ¬ (validateExecutionOrder workflow.config.nodes workflow.config.edges).length ≠
      workflow.config.nodes.length)
    (hrun : runOrder caps clock workflow.config.nodes
      (validateExecutionOrder workflow.config.nodes workflow.config.edges) 1
      { nodes := workflow.config.nodes, edges := workflow.config.edges,
        currentData := jsOr inputData JsValue.null,
        nodeExecutions := JsMap.empty } = ((tickE, ctxE), some msg)) :
    executeWorkflow caps clock workflow inputData =
      ({ workflow_id := workflow.id, status := "error", input_data := inputData,
         output_data := none, error_message := some msg,
         execution_time_ms := some (clock tickE - clock 0) }, ctxE, tickE + 1) := by
  simp only [executeWorkflow, if_neg hlen, hrun]

/-- Every id the scheduler emits resolves to a node by `find?`, for a
well-formed graph. -/
theorem order_find (nodes : List WorkflowNode) (edges : List WorkflowEdge)
    (h1 : (nodes.map (fun n => n.id)).Nodup)
    (h2 : ∀ e ∈ edges, e.source ∈ nodes.map (fun n => n.id) ∧
      e.target ∈ nodes.map (fun n => n.id)) :
    ∀ v ∈ validateExecutionOrder nodes edges,
      ∃ n, nodes.find? (fun nd => nd.id = v) = some n := by
  obtain ⟨_, hordsub, _, _⟩ := kahn_order_props nodes edges h1 h2
  intro v hv
  obtain ⟨n, hn, hnid⟩ := List.mem_map.mp (hordsub v hv)
  have hsome : (nodes.find? (fun nd => decide (nd.id = v))).isSome :=
    List.find?_isSome.mpr ⟨n, hn, by simp [hnid]⟩
  exact Option.isSome_iff_exists.mp hsome

/-- C2.  In a well-formed run in which some step fails — its StepExecution
record carries status error — the failing record holds the error message, the
run record is finalized `error` with the same message and returned, the
ledger holds records for exactly the order prefix up to and including the
failing step (no StepExecution exists for any later step), and every earlier
record is a success. -/
theorem step_failure_fails_run (caps : Capabilities) (clock : Nat → Int)
    (workflow : Workflow) (inputData : JsValue)
    (h1 : (workflow.config.nodes.map (fun n => n.id)).Nodup)
    (h2 : ∀ e ∈ workflow.config.edges,
      e.source ∈ workflow.config.nodes.map (fun n => n.id) ∧
      e.target ∈ workflow.config.nodes.map (fun n => n.id))
    (herr : ∃ v r,
      (executeWorkflow caps clock workflow inputData).2.1.nodeExecutions.get v = some r ∧
      r.status = "error") :
    (executeWorkflow caps clock workflow inputData).1.status = "error" ∧
    (∃ k w r,
      (validateExecutionOrder workflow.config.nodes workflow.config.edges)[k]? = some w ∧
      (executeWorkflow caps clock workflow inputData).2.1.nodeExecutions.get w = some r ∧
      r.status = "error" ∧
      r.error_message = (executeWorkflow caps clock workflow inputData).1.error_message ∧
      r.error_message.isSome ∧
      (executeWorkflow caps clock workflow inputData).2.1.nodeExecutions.keys =
        (validateExecutionOrder workflow.config.nodes workflow.config.edges).take (k + 1) ∧
      (∀ v ∈ (validateExecutionOrder workflow.config.nodes workflow.config.edges).take k,
        ∃ r2, (executeWorkflow caps clock workflow inputData).2.1.nodeExecutions.get v =
          some r2 ∧ r2.status = "success")) := by
  have hfind := order_find workflow.config.nodes workflow.config.edges h1 h2
  obtain ⟨hordnd, _, _, _⟩ := kahn_order_props workflow.config.nodes workflow.config.edges h1 h2
  by_cases hlen : (validateExecutionOrder workflow.config.nodes workflow.config.edges).length ≠
      workflow.config.nodes.length
  · exfalso
    obtain ⟨v, r, hget, _⟩ := herr
    have hnone : (executeWorkflow caps clock workflow inputData).2.1.nodeExecutions.get v =
        none := by
      simp only [executeWorkflow, if_pos hlen]
      rfl
    rw [hnone] at hget
    cases hget
  · rcases hrun : runOrder caps clock workflow.config.nodes
        (validateExecutionOrder workflow.config.nodes workflow.config.edges) 1
        { nodes := workflow.config.nodes, edges := workflow.config.edges,
          currentData := jsOr inputData JsValue.null,
          nodeExecutions := JsMap.empty } with ⟨⟨tickE, ctxE⟩, resE⟩
    obtain ⟨hN, hE, hUn, hOk, hErr⟩ := runOrder_spec caps clock workflow.config.nodes
      (validateExecutionOrder workflow.config.nodes workflow.config.edges) 1
      { nodes := workflow.config.nodes, edges := workflow.config.edges,
        currentData := jsOr inputData JsValue.null,
        nodeExecutions := JsMap.empty } tickE ctxE resE hrun hfind hordnd
      (fun v _ => rfl) (fun v _ h => (List.not_mem_nil v) h)
    cases resE with
    | none =>
      exfalso
      obtain ⟨v, r, hget, hst⟩ := herr
      rw [executeWorkflow_ok caps clock workflow inputData tickE ctxE hlen hrun] at hget
      by_cases hv : v ∈ validateExecutionOrder workflow.config.nodes workflow.config.edges
      · obtain ⟨hK, hS, _, _⟩ := hOk rfl
        obtain ⟨r2, hr2, hst2⟩ := hS v hv
        rw [hget] at hr2
        cases hr2
        rw [hst] at hst2
        simp at hst2
      · rw [hUn v hv] at hget
        cases hget
    | some msg =>
      obtain ⟨k, w, hkw, hK, hS, r0, hr0, hst0, hmsg0⟩ := hErr msg rfl
      rw [executeWorkflow_err caps clock workflow inputData tickE ctxE msg hlen hrun]
      refine ⟨rfl, k, w, r0, hkw, hr0, hst0, ?_, ?_, ?_, ?_⟩
      · rw [hmsg0]
      · rw [hmsg0]
        rfl
      · rw [hK]
        simp [JsMap.empty]
      · exact hS
  

theorem step_failure_fails_run_witness :
    (executeWorkflow capsDemo clockDemo wfChain JsValue.null).1.status = "error" ∧
    (∃ k w r,
      (validateExecutionOrder wfChain.config.nodes wfChain.config.edges)[k]? = some w ∧
      (executeWorkflow capsDemo clockDemo wfChain JsValue.null).2.1.nodeExecutions.get w =
        some r ∧
      r.status = "error" ∧
      r.error_message =
        (executeWorkflow capsDemo clockDemo wfChain JsValue.null).1.error_message ∧
      r.error_message.isSome ∧
      (executeWorkflow capsDemo clockDemo wfChain JsValue.null).2.1.nodeExecutions.keys =
        (validateExecutionOrder wfChain.config.nodes wfChain.config.edges).take (k + 1) ∧
      (∀ v ∈ (validateExecutionOrder wfChain.config.nodes wfChain.config.edges).take k,
        ∃ r2, (executeWorkflow capsDemo clockDemo wfChain JsValue.null).2.1.nodeExecutions.get v =
          some r2 ∧ r2.status = "success")) :=
  step_failure_fails_run capsDemo clockDemo wfChain JsValue.null (by decide) (by decide)
    ⟨some "W", _, rfl, rfl⟩

/-- C4 (amended).  In a well-formed run whose order covers all steps and in
which every scheduled step completes successfully, the run is finalized
`completed` and stores the total elapsed time; but the run record's output
payload is never assigned (it stays `none`), while the output of the last
executed step is recorded on that step's own StepExecution record, where it
equals the final carried data. -/
theorem successful_run_completes (caps : Capabilities) (clock : Nat → Int)
    (workflow : Workflow) (inputData : JsValue)
    (h1 : (workflow.config.nodes.map (fun n => n.id)).Nodup)
    (h2 : ∀ e ∈ workflow.config.edges,
      e.source ∈ workflow.config.nodes.map (fun n => n.id) ∧
      e.target ∈ workflow.config.nodes.map (fun n => n.id))
    (hlen : (validateExecutionOrder workflow.config.nodes workflow.config.edges).length =
      workflow.config.nodes.length)
    (hall : ∀ v ∈ validateExecutionOrder workflow.config.nodes workflow.config.edges,
      ∃ r, (executeWorkflow caps clock workflow inputData).2.1.nodeExecutions.get v = some r ∧
        r.status = "success") :
    (executeWorkflow caps clock workflow inputData).1.status = "completed" ∧
    (executeWorkflow caps clock workflow inputData).1.execution_time_ms =
      some (clock ((executeWorkflow caps clock workflow inputData).2.2 - 1) - clock 0) ∧
    (executeWorkflow caps clock workflow inputData).1.output_data = none ∧
    (∀ w, (validateExecutionOrder workflow.config.nodes workflow.config.edges).getLast? =
        some w →
      ∃ r, (executeWorkflow caps clock workflow inputData).2.1.nodeExecutions.get w = some r ∧
        r.output_data = some ((executeWorkflow caps clock workflow inputData).2.1.currentData)) := by
  have hfind := order_find workflow.config.nodes workflow.config.edges h1 h2
  obtain ⟨hordnd, _, _, _⟩ := kahn_order_props workflow.config.nodes workflow.config.edges h1 h2
  have hlen2 : ¬ (validateExecutionOrder workflow.config.nodes workflow.config.edges).length ≠
      workflow.config.nodes.length := fun hc => hc hlen
  rcases hrun : runOrder caps clock workflow.config.nodes
      (validateExecutionOrder workflow.config.nodes workflow.config.edges) 1
      { nodes := workflow.config.nodes, edges := workflow.config.edges,
        currentData := jsOr inputData JsValue.null,
        nodeExecutions := JsMap.empty } with ⟨⟨tickE, ctxE⟩, resE⟩
  obtain ⟨hN, hE, hUn, hOk, hErr⟩ := runOrder_spec caps clock workflow.config.nodes
    (validateExecutionOrder workflow.config.nodes workflow.config.edges) 1
    { nodes := workflow.config.nodes, edges := workflow.config.edges,
      currentData := jsOr inputData JsValue.null,
      nodeExecutions := JsMap.empty } tickE ctxE resE hrun hfind hordnd
    (fun v _ => rfl) (fun v _ h => (List.not_mem_nil v) h)
  cases resE with
  | some msg =>
    exfalso
    obtain ⟨k, w, hkw, _, _, r0, hr0, hst0, _⟩ := hErr msg rfl
    have hw : w ∈ validateExecutionOrder workflow.config.nodes workflow.config.edges :=
      List.getElem?_mem hkw
    obtain ⟨r1, hr1, hst1⟩ := hall w hw
    rw [executeWorkflow_err caps clock workflow inputData tickE ctxE msg hlen2 hrun] at hr1
    rw [hr0] at hr1
    cases hr1
    rw [hst0] at hst1
    simp at hst1
  | none =>
    obtain ⟨_, _, _, hLast⟩ := hOk rfl
    rw [executeWorkflow_ok caps clock workflow inputData tickE ctxE hlen2 hrun]
    refine ⟨rfl, by simp, rfl, ?_⟩
    intro w hw
    exact hLast w hw

theorem successful_run_completes_witness :
    (executeWorkflow capsDemo clockDemo wfSingle
      (JsValue.obj [("table", JsValue.str "customers")])).1.status = "completed" ∧
    (executeWorkflow capsDemo clockDemo wfSingle
      (JsValue.obj [("table", JsValue.str "customers")])).1.execution_time_ms =
      some (clockDemo ((executeWorkflow capsDemo clockDemo wfSingle
        (JsValue.obj [("table", JsValue.str "customers")])).2.2 - 1) - clockDemo 0) ∧
    (executeWorkflow capsDemo clockDemo wfSingle
      (JsValue.obj [("table", JsValue.str "customers")])).1.output_data = none ∧
    (∀ w, (validateExecutionOrder wfSingle.config.nodes wfSingle.config.edges).getLast? =
        some w →
      ∃ r, (executeWorkflow capsDemo clockDemo wfSingle
          (JsValue.obj [("table", JsValue.str "customers")])).2.1.nodeExecutions.get w =
        some r ∧
        r.output_data = some ((executeWorkflow capsDemo clockDemo wfSingle
          (JsValue.obj [("table", JsValue.str "customers")])).2.1.currentData)) :=
  successful_run_completes capsDemo clockDemo wfSingle
    (JsValue.obj [("table", JsValue.str "customers")]) (by decide) (by decide) (by decide)
    (by
      intro v hv
      have h2 : v ∈ [(some "X" : Option String)] := hv
      rcases List.mem_singleton.mp h2 with rfl
      exact ⟨_, rfl, rfl⟩)

/-- C4 counterexample: a completed single-step run in which the step's
StepExecution records the returned rows as its output, yet the run record's
output payload is `none` — not the last step's output as the spec states. -/
theorem run_output_not_set :
    (executeWorkflow capsDemo clockDemo wfSingle
      (JsValue.obj [("table", JsValue.str "customers")])).1.status = "completed" ∧
    (∃ r, (executeWorkflow capsDemo clockDemo wfSingle
        (JsValue.obj [("table", JsValue.str "customers")])).2.1.nodeExecutions.get (some "X") =
      some r ∧ r.output_data = some (JsValue.obj [("a", JsValue.num 1)])) ∧
    (executeWorkflow capsDemo clockDemo wfSingle
      (JsValue.obj [("table", JsValue.str "customers")])).1.output_data ≠
      some (JsValue.obj [("a", JsValue.num 1)]) :=
  ⟨rfl, ⟨_, rfl, rfl⟩, by
    intro h
    have h2 : (none : Option JsValue) = some (JsValue.obj [("a", JsValue.num 1)]) := h
    exact Option.noConfusion h2⟩

/-- A string whose first two characters are not "Du" is not a duplicate-id
message. -/
theorem ne_dupMsg_of_take2 (e : String) (h : e.data.take 2 ≠ ['D', 'u']) (s : String) :
    e ≠ dupNodeIdMsg s := by
  intro he
  apply h
  have hd : e.data = ("Duplicate node ID found: ").data ++ s.data := by
    rw [he, dupNodeIdMsg, String.data_append']
  rw [hd, List.take_append_of_le_length (by decide)]
  decide

theorem take2_append (p x : String) (h : 2 ≤ p.data.length) :
    (p ++ x).data.take 2 = p.data.take 2 := by
  rw [String.data_append', List.take_append_of_le_length h]

theorem two_le_append_len (p x : String) (h : 2 ≤ p.data.length) :
    2 ≤ (p ++ x).data.length := by
  rw [String.data_append', List.length_append]
  omega

/-- A message built by appending to a front factor that does not start with
"Du" is not a duplicate-id message. -/
theorem msg2_ne_dup (p a s : String) (hp : 2 ≤ p.data.length)
    (h : p.data.take 2 ≠ ['D', 'u']) : p ++ a ≠ dupNodeIdMsg s :=
  ne_dupMsg_of_take2 _ (by rw [take2_append p a hp]; exact h) s

theorem msg3_ne_dup (p a b s : String) (hp : 2 ≤ p.data.length)
    (h : p.data.take 2 ≠ ['D', 'u']) : (p ++ a) ++ b ≠ dupNodeIdMsg s :=
  msg2_ne_dup _ _ s (two_le_append_len p a hp) (by rw [take2_append p a hp]; exact h)

theorem msg4_ne_dup (p a b c s : String) (hp : 2 ≤ p.data.length)
    (h : p.data.take 2 ≠ ['D', 'u']) : ((p ++ a) ++ b) ++ c ≠ dupNodeIdMsg s :=
  msg3_ne_dup _ _ _ s (two_le_append_len p a hp) (by rw [take2_append p a hp]; exact h)

/-- Appending a message other than `d` does not change the count of `d`. -/
theorem count_append_msg (l : List String) (m d : String) (hm : m ≠ d) :
    (l ++ [m]).count d = l.count d := by
  rw [List.count_append]
  simp [List.count_singleton, hm]

/-- A guarded append of a message other than `d` does not change the count
of `d`. -/
theorem count_if_append (c : Prop) [Decidable c] (l : List String) (m d : String)
    (hm : m ≠ d) : (if c then l ++ [m] else l).count d = l.count d := by
  split
  · exact count_append_msg l m d hm
  · rfl

/-- The kind-specific validator only appends messages that are not
duplicate-id messages, so it never changes the count of a duplicate-id
message. -/
theorem validateNodeConfig_count (node : WorkflowNode) (config : NodeConfig)
    (es ws : List String) (s : String) :
    (validateNodeConfig node config es ws).1.count (dupNodeIdMsg s) =
      es.count (dupNodeIdMsg s) := by
  unfold validateNodeConfig
  split
  · -- database
    dsimp only
    rw [count_if_append _ _ _ _ (msg3_ne_dup "Database node " (showOptStr node.id)
        " is missing host" s (by decide) (by decide)),
      count_if_append _ _ _ _ (msg3_ne_dup "Database node " (showOptStr node.id)
        " is missing database type" s (by decide) (by decide))]
  · -- ai
    dsimp only
    rcases config.maxTokens with _ | m
    · rcases config.temperature with _ | t
      · dsimp only
        rw [count_if_append _ _ _ _ (msg3_ne_dup "AI node " (showOptStr node.id)
            " is missing prompt" s (by decide) (by decide)),
          count_if_append _ _ _ _ (msg3_ne_dup "AI node " (showOptStr node.id)
            " is missing model specification" s (by decide) (by decide))]
      · dsimp only
        rw [count_if_append _ _ _ _ (msg3_ne_dup "AI node " (showOptStr node.id)
            " has invalid temperature (must be between 0 and 1)" s (by decide) (by decide)),
          count_if_append _ _ _ _ (msg3_ne_dup "AI node " (showOptStr node.id)
            " is missing prompt" s (by decide) (by decide)),
          count_if_append _ _ _ _ (msg3_ne_dup "AI node " (showOptStr node.id)
            " is missing model specification" s (by decide) (by decide))]
    · rcases config.temperature with _ | t
      · dsimp only
        rw [count_if_append _ _ _ _ (msg3_ne_dup "AI node " (showOptStr node.id)
            " has invalid maxTokens (must be positive)" s (by decide) (by decide)),
          count_if_append _ _ _ _ (msg3_ne_dup "AI node " (showOptStr node.id)
            " is missing prompt" s (by decide) (by decide)),
          count_if_append _ _ _ _ (msg3_ne_dup "AI node " (showOptStr node.id)
            " is missing model specification" s (by decide) (by decide))]
      · dsimp only
        rw [count_if_append _ _ _ _ (msg3_ne_dup "AI node " (showOptStr node.id)
            " has invalid maxTokens (must be positive)" s (by decide) (by decide)),
          count_if_append _ _ _ _ (msg3_ne_dup "AI node " (showOptStr node.id)
            " has invalid temperature (must be between 0 and 1)" s (by decide) (by decide)),
          count_if_append _ _ _ _ (msg3_ne_dup "AI node " (showOptStr node.id)
            " is missing prompt" s (by decide) (by decide)),
          count_if_append _ _ _ _ (msg3_ne_dup "AI node " (showOptStr node.id)
            " is missing model specification" s (by decide) (by decide))]
  · -- transform
    dsimp only
    rw [count_if_append _ _ _ _ (msg3_ne_dup "Transform node " (showOptStr node.id)
        " is missing script" s (by decide) (by decide)),
      count_if_append _ _ _ _ (msg3_ne_dup "Transform node " (showOptStr node.id)
        " is missing operation type" s (by decide) (by decide))]
  · -- output
    dsimp only
    split
    · rw [count_if_append _ _ _ _ (msg3_ne_dup "Output node " (showOptStr node.id)
          " webhook is missing URL" s (by decide) (by decide)),
        count_if_append _ _ _ _ (msg3_ne_dup "Output node " (showOptStr node.id)
          " is missing output type" s (by decide) (by decide))]
    · rw [count_if_append _ _ _ _ (msg3_ne_dup "Output node " (showOptStr node.id)
          " slack is missing webhook URL" s (by decide) (by decide)),
        count_if_append _ _ _ _ (msg3_ne_dup "Output node " (showOptStr node.id)
          " is missing output type" s (by decide) (by decide))]
    · split
      · rw [count_append_msg _ _ _ (msg3_ne_dup "Output node " (showOptStr node.id)
            " email is missing recipients" s (by decide) (by decide)),
          count_if_append _ _ _ _ (msg3_ne_dup "Output node " (showOptStr node.id)
            " is missing output type" s (by decide) (by decide))]
      · rw [count_if_append _ _ _ _ (msg3_ne_dup "Output node " (showOptStr node.id)
            " email is missing recipients" s (by decide) (by decide)),
          count_if_append _ _ _ _ (msg3_ne_dup "Output node " (showOptStr node.id)
            " is missing output type" s (by decide) (by decide))]
    · rw [count_if_append _ _ _ _ (msg3_ne_dup "Output node " (showOptStr node.id)
          " is missing output type" s (by decide) (by decide))]
  · -- other types
    rfl

theorem JsSet.mem_add {κ : Type} [DecidableEq κ] (l : List κ) (k x : κ) :
    x ∈ JsSet.add l k ↔ x ∈ l ∨ x = k := by
  unfold JsSet.add
  split
  · rename_i h
    constructor
    · exact fun hx => Or.inl hx
    · rintro (hx | rfl)
      · exact hx
      · exact h
  · simp [List.mem_append]

theorem JsSet.nodup_add {κ : Type} [DecidableEq κ] (l : List κ) (k : κ) (h : l.Nodup) :
    (JsSet.add l k).Nodup := by
  unfold JsSet.add
  split
  · exact h
  · rename_i hk
    simp [List.nodup_append, h, hk]

/-- The id phase appends at most a missing-id error, never a duplicate-id
message. -/
theorem scanNodeId_count (st : NodeScanState) (node : WorkflowNode) (i : Nat) (s : String) :
    (scanNodeId st node i).errors.count (dupNodeIdMsg s) =
      st.errors.count (dupNodeIdMsg s) := by
  unfold scanNodeId
  split
  · exact count_append_msg _ _ _ (msg3_ne_dup "Node at index " (toString i)
      " is missing required \'id\' field" s (by decide) (by decide))
  · dsimp only
    split <;> rfl

theorem scanNodeType_count (st : NodeScanState) (node : WorkflowNode) (i : Nat)
    (s : String) :
    (scanNodeType st node i).errors.count (dupNodeIdMsg s) =
      st.errors.count (dupNodeIdMsg s) := by
  unfold scanNodeType
  split
  · exact count_append_msg _ _ _ (msg3_ne_dup "Node " (idOrIndex node.id i)
      " is missing required \'type\' field" s (by decide) (by decide))
  · split_ifs
    · exact count_append_msg _ _ _ (msg3_ne_dup "Node " (idOrIndex node.id i)
        " is missing required \'type\' field" s (by decide) (by decide))
    · exact count_append_msg _ _ _ (msg4_ne_dup "Node " (idOrIndex node.id i)
        " has invalid type: " _ s (by decide) (by decide))
    · rfl

theorem scanNodeData_count (st : NodeScanState) (node : WorkflowNode) (i : Nat)
    (s : String) :
    (scanNodeData st node i).errors.count (dupNodeIdMsg s) =
      st.errors.count (dupNodeIdMsg s) := by
  unfold scanNodeData
  split
  · exact count_append_msg _ _ _ (msg3_ne_dup "Node " (idOrIndex node.id i)
      " is missing required \'data\' field" s (by decide) (by decide))
  · rename_i d
    dsimp only
    split <;> (try split) <;> (try split) <;>
      first
        | rfl
        | exact validateNodeConfig_count node _ _ _ s

theorem scanNodePos_count (st : NodeScanState) (node : WorkflowNode) (i : Nat)
    (s : String) :
    (scanNodePos st node i).errors.count (dupNodeIdMsg s) =
      st.errors.count (dupNodeIdMsg s) := by
  unfold scanNodePos
  split
  · exact count_append_msg _ _ _ (msg3_ne_dup "Node " (idOrIndex node.id i)
      " has invalid position data" s (by decide) (by decide))
  · split
    · exact count_append_msg _ _ _ (msg3_ne_dup "Node " (idOrIndex node.id i)
        " has invalid position data" s (by decide) (by decide))
    · rfl

/-- The loop body never appends a duplicate-id message. -/
theorem scanNode_count (st : NodeScanState) (node : WorkflowNode) (i : Nat) (s : String) :
    (scanNode st node i).errors.count (dupNodeIdMsg s) =
      st.errors.count (dupNodeIdMsg s) := by
  unfold scanNode
  rw [scanNodePos_count, scanNodeData_count, scanNodeType_count, scanNodeId_count]

theorem scanNodeType_ids (st : NodeScanState) (node : WorkflowNode) (i : Nat) :
    (scanNodeType st node i).nodeIds = st.nodeIds ∧
    (scanNodeType st node i).duplicateIds = st.duplicateIds := by
  unfold scanNodeType
  split
  · exact ⟨rfl, rfl⟩
  · split_ifs <;> exact ⟨rfl, rfl⟩

theorem scanNodeData_ids (st : NodeScanState) (node : WorkflowNode) (i : Nat) :
    (scanNodeData st node i).nodeIds = st.nodeIds ∧
    (scanNodeData st node i).duplicateIds = st.duplicateIds := by
  unfold scanNodeData
  split
  · exact ⟨rfl, rfl⟩
  · dsimp only
    split <;> (try split) <;> (try split) <;> exact ⟨rfl, rfl⟩

theorem scanNodePos_ids (st : NodeScanState) (node : WorkflowNode) (i : Nat) :
    (scanNodePos st node i).nodeIds = st.nodeIds ∧
    (scanNodePos st node i).duplicateIds = st.duplicateIds := by
  unfold scanNodePos
  split
  · exact ⟨rfl, rfl⟩
  · split <;> exact ⟨rfl, rfl⟩

theorem scanNodeId_ids (st : NodeScanState) (node : WorkflowNode) (i : Nat) :
    (scanNodeId st node i).nodeIds =
      (if strTruthy node.id then JsSet.add st.nodeIds (showOptStr node.id)
       else st.nodeIds) ∧
    (scanNodeId st node i).duplicateIds =
      (if strTruthy node.id && st.nodeIds.contains (showOptStr node.id) then
        JsSet.add st.duplicateIds (showOptStr node.id) else st.duplicateIds) := by
  unfold scanNodeId
  by_cases h : strTruthy node.id
  · by_cases hc : showOptStr node.id ∈ st.nodeIds
    · simp [h, hc]
    · simp [h, hc]
  · simp [h]

/-- The loop body updates the id registers exactly as the id phase does. -/
theorem scanNode_ids (st : NodeScanState) (node : WorkflowNode) (i : Nat) :
    (scanNode st node i).nodeIds =
      (if strTruthy node.id then JsSet.add st.nodeIds (showOptStr node.id)
       else st.nodeIds) ∧
    (scanNode st node i).duplicateIds =
      (if strTruthy node.id && st.nodeIds.contains (showOptStr node.id) then
        JsSet.add st.duplicateIds (showOptStr node.id) else st.duplicateIds) := by
  unfold scanNode
  obtain ⟨hp1, hp2⟩ := scanNodePos_ids
    (scanNodeData (scanNodeType (scanNodeId st node i) node i) node i) node i
  obtain ⟨hd1, hd2⟩ := scanNodeData_ids (scanNodeType (scanNodeId st node i) node i) node i
  obtain ⟨ht1, ht2⟩ := scanNodeType_ids (scanNodeId st node i) node i
  obtain ⟨hi1, hi2⟩ := scanNodeId_ids st node i
  rw [hp1, hd1, ht1, hi1, hp2, hd2, ht2, hi2]
  exact ⟨rfl, rfl⟩

/-- The loop never appends a duplicate-id message to the error array. -/
theorem scanNodes_count (L : List WorkflowNode) :
    ∀ (st : NodeScanState) (i : Nat) (s : String),
    (scanNodes st i L).errors.count (dupNodeIdMsg s) =
      st.errors.count (dupNodeIdMsg s) := by
  induction L with
  | nil => intro st i s; rfl
  | cons n rest ih =>
    intro st i s
    show (scanNodes (scanNode st n i) (i + 1) rest).errors.count (dupNodeIdMsg s) = _
    rw [ih, scanNode_count]

/-- Across the whole loop, the `nodeIds` set collects exactly the truthy ids
and the `duplicateIds` set collects exactly the ids of the steps that were
already registered — the ids occurring at least twice, each at most once. -/
theorem scanNodes_ids (L : List WorkflowNode) :
    ∀ (st : NodeScanState) (i : Nat),
    st.nodeIds.Nodup → st.duplicateIds.Nodup →
    (scanNodes st i L).nodeIds.Nodup ∧
    (scanNodes st i L).duplicateIds.Nodup ∧
    (∀ s : String, s ∈ (scanNodes st i L).nodeIds ↔
      s ∈ st.nodeIds ∨ (s ≠ "" ∧ 1 ≤ idCount L s)) ∧
    (∀ s : String, s ∈ (scanNodes st i L).duplicateIds ↔
      s ∈ st.duplicateIds ∨ (s ∈ st.nodeIds ∧ s ≠ "" ∧ 1 ≤ idCount L s) ∨
        (s ≠ "" ∧ 2 ≤ idCount L s)) := by
  induction L with
  | nil =>
    intro st i h1 h2
    refine ⟨h1, h2, fun s => ?_, fun s => ?_⟩ <;> simp [scanNodes, idCount]
  | cons n rest ih =>
    intro st i h1 h2
    simp only [scanNodes]
    obtain ⟨hn1, hn2⟩ := scanNode_ids st n i
    by_cases ht : strTruthy n.id = true
    · rcases hid : n.id with _ | a
      · rw [hid] at ht
        cases ht
      · have ha : a ≠ "" := by
          rw [hid] at ht
          simpa [strTruthy] using ht
        have hupN : (scanNode st n i).nodeIds = JsSet.add st.nodeIds a := by
          rw [hn1, hid]
          simp [strTruthy, showOptStr, ha]
        have hcnt : ∀ s : String, idCount (n :: rest) s =
            idCount rest s + (if a = s then 1 else 0) := by
          intro s
          simp [idCount, List.countP_cons, hid]
        have hA : (scanNode st n i).nodeIds.Nodup := by
          rw [hupN]
          exact JsSet.nodup_add _ _ h1
        by_cases hc : a ∈ st.nodeIds
        · have hupD : (scanNode st n i).duplicateIds = JsSet.add st.duplicateIds a := by
            rw [hn2, hid]
            simp [strTruthy, showOptStr, ha, hc]
          have hB : (scanNode st n i).duplicateIds.Nodup := by
            rw [hupD]
            exact JsSet.nodup_add _ _ h2
          obtain ⟨hN1, hN2, hMem, hDup⟩ := ih (scanNode st n i) (i + 1) hA hB
          refine ⟨hN1, hN2, fun s => ?_, fun s => ?_⟩
          · rw [hMem s]
            by_cases hsa : s = a
            · subst hsa
              have hc2 : idCount (n :: rest) s = idCount rest s + 1 := by
                rw [hcnt]
                simp
              constructor
              · intro _
                exact Or.inr ⟨ha, by omega⟩
              · intro _
                exact Or.inl (by
                  rw [hupN]
                  exact (JsSet.mem_add _ _ _).mpr (Or.inr rfl))
            · have hc3 : idCount (n :: rest) s = idCount rest s := by
                rw [hcnt, if_neg (fun hh => hsa hh.symm)]
                omega
              have hm : s ∈ (scanNode st n i).nodeIds ↔ s ∈ st.nodeIds := by
                rw [hupN, JsSet.mem_add]
                simp [hsa]
              rw [hm, hc3]
          · rw [hDup s]
            by_cases hsa : s = a
            · subst hsa
              have hc2 : idCount (n :: rest) s = idCount rest s + 1 := by
                rw [hcnt]
                simp
              constructor
              · intro _
                exact Or.inr (Or.inl ⟨hc, ha, by omega⟩)
              · intro _
                exact Or.inl (by
                  rw [hupD]
                  exact (JsSet.mem_add _ _ _).mpr (Or.inr rfl))
            · have hc3 : idCount (n :: rest) s = idCount rest s := by
                rw [hcnt, if_neg (fun hh => hsa hh.symm)]
                omega
              have hm : s ∈ (scanNode st n i).duplicateIds ↔ s ∈ st.duplicateIds := by
                rw [hupD, JsSet.mem_add]
                simp [hsa]
              have hm2 : s ∈ (scanNode st n i).nodeIds ↔ s ∈ st.nodeIds := by
                rw [hupN, JsSet.mem_add]
                simp [hsa]
              rw [hm, hm2, hc3]
        · have hupD : (scanNode st n i).duplicateIds = st.duplicateIds := by
            rw [hn2, hid]
            simp [strTruthy, showOptStr, ha, hc]
          have hB : (scanNode st n i).duplicateIds.Nodup := by
            rw [hupD]
            exact h2
          obtain ⟨hN1, hN2, hMem, hDup⟩ := ih (scanNode st n i) (i + 1) hA hB
          refine ⟨hN1, hN2, fun s => ?_, fun s => ?_⟩
          · rw [hMem s]
            by_cases hsa : s = a
            · subst hsa
              have hc2 : idCount (n :: rest) s = idCount rest s + 1 := by
                rw [hcnt]
                simp
              constructor
              · intro _
                exact Or.inr ⟨ha, by omega⟩
              · intro _
                exact Or.inl (by
                  rw [hupN]
                  exact (JsSet.mem_add _ _ _).mpr (Or.inr rfl))
            · have hc3 : idCount (n :: rest) s = idCount rest s := by
                rw [hcnt, if_neg (fun hh => hsa hh.symm)]
                omega
              have hm : s ∈ (scanNode st n i).nodeIds ↔ s ∈ st.nodeIds := by
                rw [hupN, JsSet.mem_add]
                simp [hsa]
              rw [hm, hc3]
          · rw [hDup s, hupD]
            by_cases hsa : s = a
            · subst hsa
              have hc2 : idCount (n :: rest) s = idCount rest s + 1 := by
                rw [hcnt]
                simp
              have hm2 : s ∈ (scanNode st n i).nodeIds := by
                rw [hupN]
                exact (JsSet.mem_add _ _ _).mpr (Or.inr rfl)
              rw [hc2]
              constructor
              · rintro (h | ⟨_, _, hcc⟩ | ⟨_, hcc⟩)
                · exact Or.inl h
                · exact Or.inr (Or.inr ⟨ha, by omega⟩)
                · exact Or.inr (Or.inr ⟨ha, by omega⟩)
              · rintro (h | ⟨hmem, _, _⟩ | ⟨_, hcc⟩)
                · exact Or.inl h
                · exact absurd hmem hc
                · exact Or.inr (Or.inl ⟨hm2, ha, by omega⟩)
            · have hc3 : idCount (n :: rest) s = idCount rest s := by
                rw [hcnt, if_neg (fun hh => hsa hh.symm)]
                omega
              have hm2 : s ∈ (scanNode st n i).nodeIds ↔ s ∈ st.nodeIds := by
                rw [hupN, JsSet.mem_add]
                simp [hsa]
              rw [hm2, hc3]
    · have hupN : (scanNode st n i).nodeIds = st.nodeIds := by
        rw [hn1]
        simp [ht]
      have hupD : (scanNode st n i).duplicateIds = st.duplicateIds := by
        rw [hn2]
        simp [ht]
      have hcnt0 : ∀ s : String, s ≠ "" → idCount (n :: rest) s = idCount rest s := by
        intro s hs
        rcases hid : n.id with _ | a
        · simp [idCount, List.countP_cons, hid]
        · have ha : a = "" := by
            rw [hid] at ht
            simpa [strTruthy] using ht
          subst ha
          simp [idCount, List.countP_cons, hid]
          exact fun hh => hs hh.symm
      have hA : (scanNode st n i).nodeIds.Nodup := by
        rw [hupN]
        exact h1
      have hB : (scanNode st n i).duplicateIds.Nodup := by
        rw [hupD]
        exact h2
      obtain ⟨hN1, hN2, hMem, hDup⟩ := ih (scanNode st n i) (i + 1) hA hB
      refine ⟨hN1, hN2, fun s => ?_, fun s => ?_⟩
      · rw [hMem s, hupN]
        by_cases hs : s = ""
        · subst hs
          simp
        · rw [hcnt0 s hs]
      · rw [hDup s, hupD, hupN]
        by_cases hs : s = ""
        · subst hs
          simp
        · rw [hcnt0 s hs]

/-- The duplicate-id report loop appends one message per registered id, in
set order, after the per-step findings. -/
theorem dup_foldl (l : List String) :
    ∀ acc : List String,
    l.foldl (fun es id => es ++ ["Duplicate node ID found: " ++ id]) acc =
      acc ++ l.map dupNodeIdMsg := by
  induction l with
  | nil => intro acc; simp
  | cons x xs ih =>
    intro acc
    simp only [List.foldl_cons, List.map_cons]
    rw [ih]
    simp [dupNodeIdMsg]

theorem dupNodeIdMsg_inj : Function.Injective dupNodeIdMsg := by
  intro a b h
  by_contra hne
  exact append_ne_of_ne_right "Duplicate node ID found: " hne h

theorem count_map_dup (l : List String) (hnd : l.Nodup) (s : String) :
    (l.map dupNodeIdMsg).count (dupNodeIdMsg s) = if s ∈ l then 1 else 0 := by
  rw [List.count_map_of_injective _ _ dupNodeIdMsg_inj]
  split
  · exact List.count_eq_one_of_mem hnd (by assumption)
  · exact List.count_eq_zero_of_not_mem (by assumption)

/-- C8.  For every step list, the validator error list splits into the
per-step findings — none of which is a duplicate-id message — followed by
the duplicate-id report; an id is reported there exactly when it is a truthy
id carried by at least two steps, and each such id is reported exactly once,
however often it repeats. -/
theorem duplicate_id_reported_once (nodes : List WorkflowNode) :
    ∃ pre dups : List String,
      (validateWorkflowNodes nodes).errors = pre ++ dups.map dupNodeIdMsg ∧
      (∀ e ∈ pre, ∀ s : String, e ≠ dupNodeIdMsg s) ∧
      (∀ s : String, s ∈ dups ↔ (s ≠ "" ∧ 2 ≤ idCount nodes s)) ∧
      (∀ s : String, (validateWorkflowNodes nodes).errors.count (dupNodeIdMsg s) =
        if s ≠ "" ∧ 2 ≤ idCount nodes s then 1 else 0) := by
  obtain ⟨hN1, hN2, hMem, hDup⟩ :=
    scanNodes_ids nodes ⟨[], [], [], []⟩ 0 List.nodup_nil List.nodup_nil
  have hDup2 : ∀ s : String, s ∈ (scanNodes ⟨[], [], [], []⟩ 0 nodes).duplicateIds ↔
      (s ≠ "" ∧ 2 ≤ idCount nodes s) := by
    intro s
    rw [hDup s]
    simp
  have herrs : (validateWorkflowNodes nodes).errors =
      (scanNodes ⟨[], [], [], []⟩ 0 nodes).errors ++
        (scanNodes ⟨[], [], [], []⟩ 0 nodes).duplicateIds.map dupNodeIdMsg := by
    show (scanNodes ⟨[], [], [], []⟩ 0 nodes).duplicateIds.foldl
        (fun es id => es ++ ["Duplicate node ID found: " ++ id])
        (scanNodes ⟨[], [], [], []⟩ 0 nodes).errors = _
    exact dup_foldl _ _
  have hpre : ∀ s : String,
      (scanNodes ⟨[], [], [], []⟩ 0 nodes).errors.count (dupNodeIdMsg s) = 0 :=
    fun s => scanNodes_count nodes ⟨[], [], [], []⟩ 0 s
  refine ⟨(scanNodes ⟨[], [], [], []⟩ 0 nodes).errors,
    (scanNodes ⟨[], [], [], []⟩ 0 nodes).duplicateIds, herrs, ?_, hDup2, ?_⟩
  · intro e he s heq
    have h0 := hpre s
    rw [List.count_eq_zero] at h0
    exact h0 (heq ▸ he)
  · intro s
    rw [herrs, List.count_append, hpre s, count_map_dup _ hN2 s]
    rw [if_congr (hDup2 s) rfl rfl]
    omega

/-- On a connection with absent endpoints, the `forEach` body appends the
missing-source, missing-target and self-referencing errors, after whatever
the id check appended. -/
theorem scanEdge_undef (nodeIds : List (Option String)) (st : EdgeScanState)
    (e : WorkflowEdge) (i : Nat) (hs : e.source = none) (ht : e.target = none) :
    ∃ E0, (scanEdge nodeIds st e i).errors = st.errors ++ E0 ++
      ["Edge " ++ idOrIndex e.id i ++ " is missing required \'source\' field",
       "Edge " ++ idOrIndex e.id i ++ " is missing required \'target\' field",
       "Edge " ++ idOrIndex e.id i ++
         " is self-referencing (source and target are the same)"] := by
  unfold scanEdge
  rw [hs, ht]
  simp only [strTruthy, Bool.not_false, if_true]
  split
  · exact ⟨["Edge at index " ++ toString i ++ " is missing required \'id\' field"],
      by simp⟩
  · split
    · exact ⟨["Duplicate edge ID found: " ++ showOptStr e.id], by simp⟩
    · exact ⟨[], by simp⟩

/-- The `forEach` body of the edge validator only appends to the error
array. -/
theorem scanEdge_errors_mono (nodeIds : List (Option String)) (st : EdgeScanState)
    (e : WorkflowEdge) (i : Nat) (m : String) (hm : m ∈ st.errors) :
    m ∈ (scanEdge nodeIds st e i).errors := by
  unfold scanEdge
  repeat' split
  all_goals simp [hm]

/-- The edge loop only appends to the error array. -/
theorem scanEdges_errors_mono (nodeIds : List (Option String)) (L : List WorkflowEdge) :
    ∀ (st : EdgeScanState) (i : Nat) (m : String), m ∈ st.errors →
    m ∈ (scanEdges nodeIds st i L).errors := by
  induction L with
  | nil => intro st i m hm; exact hm
  | cons x rest ih =>
    intro st i m hm
    exact ih (scanEdge nodeIds st x i) (i + 1) m (scanEdge_errors_mono nodeIds st x i m hm)

/-- Every connection with absent endpoints leaves its three errors in the
final error array of the edge loop, at its own index. -/
theorem scanEdges_undef_mem (nodeIds : List (Option String)) (L : List WorkflowEdge) :
    ∀ (st : EdgeScanState) (i k : Nat) (e : WorkflowEdge),
    L[k]? = some e → e.source = none → e.target = none →
    ("Edge " ++ idOrIndex e.id (i + k) ++ " is missing required \'source\' field")
      ∈ (scanEdges nodeIds st i L).errors ∧
    ("Edge " ++ idOrIndex e.id (i + k) ++ " is missing required \'target\' field")
      ∈ (scanEdges nodeIds st i L).errors ∧
    ("Edge " ++ idOrIndex e.id (i + k) ++
        " is self-referencing (source and target are the same)")
      ∈ (scanEdges nodeIds st i L).errors := by
  induction L with
  | nil =>
    intro st i k e hk
    simp at hk
  | cons x rest ih =>
    intro st i k e hk hs ht
    cases k with
    | zero =>
      have hx : x = e := by simpa using hk
      subst hx
      obtain ⟨E0, hE0⟩ := scanEdge_undef nodeIds st x i hs ht
      show _ ∈ (scanEdges nodeIds (scanEdge nodeIds st x i) (i + 1) rest).errors ∧ _
      refine ⟨?_, ?_, ?_⟩ <;>
        (apply scanEdges_errors_mono nodeIds rest (scanEdge nodeIds st x i) (i + 1);
         rw [hE0]; simp)
    | succ k =>
      have hk2 : rest[k]? = some e := by simpa using hk
      have hik : i + (k + 1) = (i + 1) + k := by omega
      rw [hik]
      exact ih (scanEdge nodeIds st x i) (i + 1) k e hk2 hs ht

/-- C10.  For every connection whose source and target fields are both
absent, wherever it sits in the connection list and whatever the step list,
the edge validator reports it as self-referencing — the absent source equals
the absent target in the JS comparison — in addition to the missing-source
and missing-target errors. -/
theorem undefined_endpoints_self_referencing (edges : List WorkflowEdge)
    (nodes : List WorkflowNode) (k : Nat) (e : WorkflowEdge)
    (hk : edges[k]? = some e) (hs : e.source = none) (ht : e.target = none) :
    ("Edge " ++ idOrIndex e.id k ++ " is missing required \'source\' field")
      ∈ (validateWorkflowEdges edges nodes).errors ∧
    ("Edge " ++ idOrIndex e.id k ++ " is missing required \'target\' field")
      ∈ (validateWorkflowEdges edges nodes).errors ∧
    ("Edge " ++ idOrIndex e.id k ++
        " is self-referencing (source and target are the same)")
      ∈ (validateWorkflowEdges edges nodes).errors := by
  have h := scanEdges_undef_mem (nodes.foldl (fun s node => JsSet.add s node.id) []) edges
    ⟨[], []⟩ 0 k e hk hs ht
  rw [Nat.zero_add] at h
  exact h

theorem undefined_endpoints_self_referencing_witness :
    ("Edge " ++ idOrIndex (some "e1") 0 ++ " is missing required \'source\' field")
      ∈ (validateWorkflowEdges [{ id := some "e1", source := none, target := none }]
          []).errors ∧
    ("Edge " ++ idOrIndex (some "e1") 0 ++ " is missing required \'target\' field")
      ∈ (validateWorkflowEdges [{ id := some "e1", source := none, target := none }]
          []).errors ∧
    ("Edge " ++ idOrIndex (some "e1") 0 ++
        " is self-referencing (source and target are the same)")
      ∈ (validateWorkflowEdges [{ id := some "e1", source := none, target := none }]
          []).errors :=
  undefined_endpoints_self_referencing
    [{ id := some "e1", source := none, target := none }] [] 0
    { id := some "e1", source := none, target := none } rfl rfl rfl
